import Mathlib

set_option maxHeartbeats 1000000

/-!
Shallow embedding of `src/main.ts` of the postgres-embeddings-generator
repository: the reconciliation engine `generateEmbeddings` and the entry
point `run`, together with the relational state they mutate (`page` and
`page_section` tables) and the external collaborators they call (tree
walker, source loader, embedding provider, store connection).
-/

/-- A row of the `page` table. -/
structure PageRow where
  id : Nat
  path : String
  checksum : Option String
  type : String
  source : String
  meta : String
  parent_page_id : Option Nat
  version : String
  last_refresh : Nat
  deriving Repr, DecidableEq

/-- A row of the `page_section` table. -/
structure SectionRow where
  id : Nat
  page_id : Nat
  slug : String
  heading : String
  content : String
  token_count : Nat
  embedding : List Int
  deriving Repr, DecidableEq

/-- The relational store: the two tables plus the id sequences the store
uses to assign fresh primary keys. -/
structure DB where
  pages : List PageRow
  sections : List SectionRow
  nextPageId : Nat
  nextSectionId : Nat
  deriving Repr, DecidableEq

/-- The query `SELECT ... FROM page WHERE path = $1 LIMIT 1`. -/
def queryPageByPath (db : DB) (p : String) : Option PageRow :=
  db.pages.find? (fun r => r.path == p)

/-- The query `SELECT ... FROM page WHERE id = $1 LIMIT 1`. -/
def queryPageById (db : DB) (i : Nat) : Option PageRow :=
  db.pages.find? (fun r => r.id == i)

/-- Update every page row whose id is `pid` with `f` (SQL `UPDATE page ... WHERE id = pid`). -/
def mapPages (db : DB) (pid : Nat) (f : PageRow → PageRow) : DB :=
  { db with pages := db.pages.map (fun r => if r.id == pid then f r else r) }

/-- The statement `UPDATE page SET parent_page_id = $1 WHERE id = $2` (main.ts line 56). -/
def updatePageParent (db : DB) (pid : Nat) (par : Option Nat) : DB :=
  mapPages db pid (fun r => { r with parent_page_id := par })

/-- The statement `UPDATE page SET type = $1, source = $2, meta = $3, version = $4,
last_refresh = $5 WHERE id = $6` (main.ts line 60). -/
def updatePageMeta (db : DB) (pid : Nat) (t s m : String) (v : String) (d : Nat) : DB :=
  mapPages db pid (fun r =>
    { r with type := t, source := s, meta := m, version := v, last_refresh := d })

/-- The statement `UPDATE page SET checksum = $1 WHERE id = $2` (main.ts line 128). -/
def updatePageChecksum (db : DB) (pid : Nat) (c : String) : DB :=
  mapPages db pid (fun r => { r with checksum := some c })

/-- The statement `DELETE FROM page_section WHERE page_id = $1` (main.ts line 75). -/
def deleteSections (db : DB) (pid : Nat) : DB :=
  { db with sections := db.sections.filter (fun s => s.page_id != pid) }

/-- The page upsert of main.ts lines 81-91:
`INSERT INTO page (checksum, path, ...) VALUES (NULL, $1, ...)
 ON CONFLICT (path) DO UPDATE SET checksum = EXCLUDED.checksum, ... RETURNING id`.
On conflict the row keeps its id and its checksum is overwritten with the
excluded value, which is NULL; on a fresh insert the checksum starts NULL.
Returns the updated store and the returned id. -/
def upsertPage (db : DB) (path t s m : String) (par : Option Nat) (v : String) (d : Nat) :
    DB × Nat :=
  match db.pages.find? (fun r => r.path == path) with
  | some ex =>
    (mapPages db ex.id (fun r =>
      { r with checksum := none, type := t, source := s, meta := m,
               parent_page_id := par, version := v, last_refresh := d }), ex.id)
  | none =>
    ({ db with
       pages := db.pages ++ [⟨db.nextPageId, path, none, t, s, m, par, v, d⟩],
       nextPageId := db.nextPageId + 1 }, db.nextPageId)

/-- The statement `INSERT INTO page_section (page_id, slug, heading, content,
token_count, embedding)` (main.ts lines 115-121). -/
def insertSection (db : DB) (pid : Nat) (slug heading content : String)
    (tok : Nat) (emb : List Int) : DB :=
  { db with
    sections := db.sections ++ [⟨db.nextSectionId, pid, slug, heading, content, tok, emb⟩],
    nextSectionId := db.nextSectionId + 1 }

/-- The section rows belonging to one page. -/
def sectionsOfPage (db : DB) (pid : Nat) : List SectionRow :=
  db.sections.filter (fun s => s.page_id == pid)

/-- The statement `DELETE FROM page WHERE version <> $1` (main.ts line 139), together with
the cascade of their sections. Modelled from the spec: the schema holding the
`page_section.page_id → page.id` foreign-key cascade is not under src/; the
spec states the sweep removes "old pages and their sections". -/
def sweepPages (db : DB) (v : String) : DB :=
  let removed := (db.pages.filter (fun p => p.version != v)).map (fun p => p.id)
  { db with
    pages := db.pages.filter (fun p => p.version == v),
    sections := db.sections.filter (fun s => !(removed.contains s.page_id)) }

/-- One chunk produced by the source loader: `{slug, heading, content}`. -/
structure Chunk where
  slug : String
  heading : String
  content : String
  deriving Repr, DecidableEq

/-- Result of `embeddingSource.load()`: `{checksum, meta, sections}` (main.ts line 39). -/
structure LoadResult where
  checksum : String
  meta : String
  sections : List Chunk
  deriving Repr, DecidableEq

/-- A successful embedding response: the vector and the reported token usage
(`embeddingResponse.data.data[0].embedding`, `embeddingResponse.data.usage.total_tokens`). -/
structure EmbedData where
  embedding : List Int
  total_tokens : Nat
  deriving Repr, DecidableEq

/-- One entry returned by `walk(docsRootPath)`. -/
structure WalkEntry where
  path : String
  parentPath : Option String
  deriving Repr, DecidableEq

/-- A discovered source: the fields destructured from a `MarkdownSource`
at main.ts line 36. -/
structure SourceEntry where
  type : String
  source : String
  path : String
  parentPath : Option String
  deriving Repr, DecidableEq

/-- Modelled from the spec: the `MarkdownSource` class (src/sources/markdown,
not under src/) built by `new MarkdownSource("markdown", entry.path)`. The spec
describes a discovered source only as `{path, parentPath}` plus provenance
tags, so the model keeps the walked path and parent path and tags the entry
as markdown. -/
def mkSource (e : WalkEntry) : SourceEntry :=
  { type := "markdown", source := "markdown", path := e.path, parentPath := e.parentPath }

/-- The external collaborators: store connection, tree walker, source
loader and embedding provider. Fallible collaborators return `Except`;
an `error` models a thrown error / non-success response. The store's
individual query calls inside a source's processing can also throw and be
caught by the per-source catch: those store operation failures are modelled
by the fault injection `sfail` of `processSourceF` and `runLoopF` below. -/
structure Env where
  connect : String → Except String Unit
  walk : String → List WalkEntry
  load : String → Except String LoadResult
  embed : String → Except String EmbedData
  close : Except String Unit

/-- The version token and timestamp allocated once per run
(`refreshVersion = uuidv4()`, `refreshDate = new Date()`, main.ts lines 18-19). -/
structure RunCtx where
  refreshVersion : String
  refreshDate : Nat
  deriving Repr, DecidableEq

/-- The list `const ignoredFiles = ["pages/404.mdx"]` (main.ts line 21). -/
def ignoredFiles : List String := ["pages/404.mdx"]

/-- The extension filter `/\.mdx?$/.test(path)` (main.ts line 23): the path
ends in `.md` or `.mdx`. -/
def hasMarkdownExt (p : String) : Bool :=
  List.isSuffixOf ".md".data p.data || List.isSuffixOf ".mdx".data p.data

/-- Source discovery (main.ts lines 22-25): walk the root, keep markdown-family
extensions, drop the ignore list, wrap each entry as a markdown source. -/
def discoverSources (entries : List WalkEntry) : List SourceEntry :=
  (((entries.filter (fun e => hasMarkdownExt e.path)).filter
      (fun e => !(ignoredFiles.contains e.path))).map mkSource)

/-- The normalization `content.replace(/\n/g, " ")` (main.ts line 96): each newline character
becomes a single space. -/
def collapseNewlines (s : String) : String :=
  ⟨s.data.map (fun c => if c = '\n' then ' ' else c)⟩

/-- The per-section loop of main.ts lines 95-126: for each chunk in source
order, collapse newlines, call the embedding provider, and insert a section
row; a failed call rethrows out of the loop (after being logged with the
normalized input), leaving earlier inserts in place. Returns the final
store, the store state after each insert, the inputs sent to the provider,
and whether every section succeeded. -/
def processSections (env : Env) (db : DB) (pid : Nat) :
    List Chunk → DB × List DB × List String × Bool
  | [] => (db, [], [], true)
  | c :: rest =>
    let input := collapseNewlines c.content
    match env.embed input with
    | .error _ => (db, [], [input], false)
    | .ok ed =>
      let db1 := insertSection db pid c.slug c.heading c.content ed.total_tokens ed.embedding
      let r := processSections env db1 pid rest
      (r.1, db1 :: r.2.1, input :: r.2.2.1, r.2.2.2)

/-- The changed/forced/new path of main.ts lines 78-128 (after the optional
section purge): resolve the parent page by `parentPath`, upsert the page row
(checksum NULL), embed and insert every section, and on full success commit
the freshly computed checksum. Returns the final store, the store state after
each write, and the provider inputs. -/
def resyncPage (env : Env) (ctx : RunCtx) (src : SourceEntry) (lr : LoadResult) (db : DB) :
    DB × List DB × List String :=
  let parentPage := src.parentPath.bind (fun pp => queryPageByPath db pp)
  let up := upsertPage db src.path src.type src.source lr.meta
      (parentPage.map (fun p => p.id)) ctx.refreshVersion ctx.refreshDate
  let r := processSections env up.1 up.2 lr.sections
  if r.2.2.2 then
    let db3 := updatePageChecksum r.1 up.2 lr.checksum
    (db3, up.1 :: r.2.1 ++ [db3], r.2.2.1)
  else
    (r.1, up.1 :: r.2.1, r.2.2.1)

/-- The condition of main.ts line 45:
`!shouldRefresh && existingPage?.checksum === checksum`. A missing page or a
stored NULL checksum makes it false. -/
def metaCond (shouldRefresh : Bool) (existingPage : Option PageRow) (chk : String) : Bool :=
  !shouldRefresh &&
    (match existingPage with
     | some ex => ex.checksum == some chk
     | none => false)

/-- Processing of one source: the body of the `for` loop of main.ts lines
35-135, whose try/catch swallows any failure raised for this source. Returns
the final store, the store state after each write, and the provider inputs.
A load failure leaves the store untouched; an unchanged checksum (with the
refresh flag unset) takes the metadata-only branch; otherwise the old
sections are purged and the page fully resynced. -/
def processSource (env : Env) (ctx : RunCtx) (shouldRefresh : Bool)
    (src : SourceEntry) (db : DB) : DB × List DB × List String :=
  match env.load src.path with
  | .error _ => (db, [], [])
  | .ok lr =>
    match queryPageByPath db src.path with
    | some ex =>
      if !shouldRefresh && (ex.checksum == some lr.checksum) then
        let existingParentPage := ex.parent_page_id.bind (fun i => queryPageById db i)
        let changedParent := (existingParentPage.map (fun p => p.path)) != src.parentPath
        let db1 :=
          if changedParent then
            updatePageParent db ex.id
              ((src.parentPath.bind (fun pp => queryPageByPath db pp)).map (fun p => p.id))
          else db
        let db2 := updatePageMeta db1 ex.id src.type src.source lr.meta
            ctx.refreshVersion ctx.refreshDate
        (db2, (if changedParent then [db1] else []) ++ [db2], [])
      else
        let db0 := deleteSections db ex.id
        let r := resyncPage env ctx src lr db0
        (r.1, db0 :: r.2.1, r.2.2)
    | none => resyncPage env ctx src lr db

/-- The `for (const embeddingSource of embeddingSources)` loop: sources are
processed strictly in order, each inside its own try/catch, so the loop always
reaches the next source. Collects the provider inputs of the whole batch. -/
def runLoop (env : Env) (ctx : RunCtx) (shouldRefresh : Bool) :
    List SourceEntry → DB → DB × List String
  | [], db => (db, [])
  | src :: rest, db =>
    let r1 := processSource env ctx shouldRefresh src db
    let r2 := runLoop env ctx shouldRefresh rest r1.1
    (r2.1, r1.2.2 ++ r2.2)

/-- The configuration bundle of `generateEmbeddings` (main.ts line 11); the
destructuring default makes `shouldRefresh` false when absent. -/
structure GenerateEmbeddingsProps where
  shouldRefresh : Bool := false
  postgresConnectionString : String
  openaiKey : String
  docsRootPath : String

/-- The engine `generateEmbeddings` (main.ts lines 14-144): connect, discover sources,
run the per-source loop, sweep every page not stamped with this run's version
token, close. Connection-level failures (connect/close) are the only errors
that escape; every per-source failure is caught inside the loop. Returns the
final store and the inputs sent to the embedding provider. -/
def generateEmbeddings (env : Env) (ctx : RunCtx) (props : GenerateEmbeddingsProps)
    (db : DB) : Except String (DB × List String) :=
  match env.connect props.postgresConnectionString with
  | .error e => .error e
  | .ok _ =>
    let embeddingSources := discoverSources (env.walk props.docsRootPath)
    let r := runLoop env ctx props.shouldRefresh embeddingSources db
    let db2 := sweepPages r.1 ctx.refreshVersion
    match env.close with
    | .error e => .error e
    | .ok _ => .ok (db2, r.2)

/-- What the invoking environment observes from `run()`: nothing on success,
`core.setFailed(message)` on the first uncaught error. -/
inductive Outcome where
  | success : Outcome
  | failed : String → Outcome
  deriving Repr, DecidableEq

/-- The three action inputs read by `run()` (main.ts lines 148-150); there is
no input for a refresh flag. -/
structure RunInputs where
  postgresConnectionString : String
  openaiKey : String
  docsRootPath : String

/-- The entry point `run()` (main.ts lines 146-159): read the three inputs, call
`generateEmbeddings` without a `shouldRefresh` argument, and report any
uncaught error as the run's failure. -/
def run (env : Env) (ctx : RunCtx) (db : DB) (inputs : RunInputs) : Outcome :=
  match generateEmbeddings env ctx
      { postgresConnectionString := inputs.postgresConnectionString,
        openaiKey := inputs.openaiKey,
        docsRootPath := inputs.docsRootPath } db with
  | .ok _ => Outcome.success
  | .error e => Outcome.failed e

/-- Store well-formedness: page paths unique (the `page.path` unique key),
page ids unique and below the id sequence, section ids below the section id
sequence, and the `page_section.page_id` foreign key. -/
def WF (db : DB) : Prop :=
  (db.pages.map (fun p => p.path)).Nodup ∧
  (db.pages.map (fun p => p.id)).Nodup ∧
  (∀ p ∈ db.pages, p.id < db.nextPageId) ∧
  (∀ s ∈ db.sections, s.id < db.nextSectionId) ∧
  (∀ s ∈ db.sections, s.page_id ∈ db.pages.map (fun p => p.id))

instance (db : DB) : Decidable (WF db) := by
  unfold WF; infer_instance

/-- Whether the provider succeeds on one chunk's normalized content. -/
def embedOk (env : Env) (c : Chunk) : Bool :=
  match env.embed (collapseNewlines c.content) with
  | .ok _ => true
  | .error _ => false

/-- The section rows the per-section loop inserts for a page, starting at a
given id of the section id sequence: one row per chunk in source order, each
carrying the chunk's original content and the provider's vector and token
count, cut off at the first failing chunk. -/
def expectedSections (env : Env) (pid : Nat) (startId : Nat) : List Chunk → List SectionRow
  | [] => []
  | c :: rest =>
    match env.embed (collapseNewlines c.content) with
    | .ok ed =>
      ⟨startId, pid, c.slug, c.heading, c.content, ed.total_tokens, ed.embedding⟩ ::
        expectedSections env pid (startId + 1) rest
    | .error _ => []

/-- The inputs the per-section loop sends to the provider: the normalized
content of every chunk up to and including the first failing one. -/
def expectedCalls (env : Env) : List Chunk → List String
  | [] => []
  | c :: rest =>
    let input := collapseNewlines c.content
    match env.embed input with
    | .ok _ => input :: expectedCalls env rest
    | .error _ => [input]

/-- The intermediate stores the per-section loop produces (one after each
section insert). -/
def expectedSecStates (env : Env) (db : DB) (pid : Nat) : List Chunk → List DB
  | [] => []
  | c :: rest =>
    match env.embed (collapseNewlines c.content) with
    | .ok ed =>
      let db1 := insertSection db pid c.slug c.heading c.content ed.total_tokens ed.embedding
      db1 :: expectedSecStates env db1 pid rest
    | .error _ => []

/-- The provider inputs one source contributes to the batch: none on a load
failure or in the metadata-only branch, the per-section inputs otherwise. -/
def expectedSourceCalls (env : Env) (shouldRefresh : Bool) (db : DB) (src : SourceEntry) :
    List String :=
  match env.load src.path with
  | .error _ => []
  | .ok lr =>
    if metaCond shouldRefresh (queryPageByPath db src.path) lr.checksum then []
    else expectedCalls env lr.sections

/-- Whether one source takes the metadata-only branch against a given store. -/
def metaCondB (env : Env) (shouldRefresh : Bool) (db : DB) (src : SourceEntry) : Bool :=
  match env.load src.path with
  | .error _ => false
  | .ok lr => metaCond shouldRefresh (queryPageByPath db src.path) lr.checksum

/-! ### Basic lemmas about the store primitives -/

theorem map_path_mapRows (l : List PageRow) (pid : Nat) (f : PageRow → PageRow)
    (hf : ∀ r, (f r).path = r.path) :
    (l.map (fun r => if r.id == pid then f r else r)).map (fun p => p.path)
      = l.map (fun p => p.path) := by
  induction l with
  | nil => rfl
  | cons a l ih =>
    simp only [List.map_cons, ih]
    by_cases h : (a.id == pid) = true
    · simp [h, hf a]
    · simp [h]

theorem map_id_mapRows (l : List PageRow) (pid : Nat) (f : PageRow → PageRow)
    (hf : ∀ r, (f r).id = r.id) :
    (l.map (fun r => if r.id == pid then f r else r)).map (fun p => p.id)
      = l.map (fun p => p.id) := by
  induction l with
  | nil => rfl
  | cons a l ih =>
    simp only [List.map_cons, ih]
    by_cases h : (a.id == pid) = true
    · simp [h, hf a]
    · simp [h]

theorem mapPages_pages_map_path (db : DB) (pid : Nat) (f : PageRow → PageRow)
    (hf : ∀ r, (f r).path = r.path) :
    (mapPages db pid f).pages.map (fun p => p.path) = db.pages.map (fun p => p.path) :=
  map_path_mapRows db.pages pid f hf

theorem mapPages_pages_map_id (db : DB) (pid : Nat) (f : PageRow → PageRow)
    (hf : ∀ r, (f r).id = r.id) :
    (mapPages db pid f).pages.map (fun p => p.id) = db.pages.map (fun p => p.id) :=
  map_id_mapRows db.pages pid f hf

theorem find?_map_pathPreserving (l : List PageRow) (g : PageRow → PageRow)
    (hg : ∀ r, (g r).path = r.path) (q : String) :
    (l.map g).find? (fun r => r.path == q) = (l.find? (fun r => r.path == q)).map g := by
  induction l with
  | nil => rfl
  | cons a l ih =>
    by_cases h : (a.path == q) = true
    · rw [List.map_cons,
        @List.find?_cons_of_pos _ (fun r => r.path == q) (g a) (l.map g)
          (by simpa [hg a] using h),
        @List.find?_cons_of_pos _ (fun r => r.path == q) a l h]
      rfl
    · rw [List.map_cons,
        @List.find?_cons_of_neg _ (fun r => r.path == q) (g a) (l.map g)
          (by simpa [hg a] using h),
        @List.find?_cons_of_neg _ (fun r => r.path == q) a l h, ih]

theorem queryPageByPath_mapPages (db : DB) (pid : Nat) (f : PageRow → PageRow)
    (hf : ∀ r, (f r).path = r.path) (q : String) :
    queryPageByPath (mapPages db pid f) q
      = (queryPageByPath db q).map (fun r => if r.id == pid then f r else r) := by
  unfold queryPageByPath mapPages
  exact find?_map_pathPreserving db.pages (fun r => if r.id == pid then f r else r)
    (fun r => by by_cases h : (r.id == pid) = true <;> simp [h, hf]) q

theorem find?_append_of_none {α : Type} (l1 l2 : List α) (p : α → Bool)
    (h : l1.find? p = none) : (l1 ++ l2).find? p = l2.find? p := by
  rw [List.find?_append, h]
  rfl

theorem queryPageByPath_eq_none_iff (db : DB) (q : String) :
    queryPageByPath db q = none ↔ ∀ p ∈ db.pages, p.path ≠ q := by
  unfold queryPageByPath
  rw [List.find?_eq_none]
  constructor
  · intro h p hp; have := h p hp; simpa using this
  · intro h p hp; simpa using h p hp

theorem queryPageByPath_mem (db : DB) (q : String) (p : PageRow)
    (h : queryPageByPath db q = some p) : p ∈ db.pages ∧ p.path = q := by
  unfold queryPageByPath at h
  refine ⟨List.mem_of_find?_eq_some h, ?_⟩
  have := List.find?_some h
  simpa using this

theorem find?_path_of_mem (l : List PageRow) (hn : (l.map (fun p => p.path)).Nodup)
    (p : PageRow) (hp : p ∈ l) : l.find? (fun r => r.path == p.path) = some p := by
  induction l with
  | nil => cases hp
  | cons a l ih =>
    simp only [List.map_cons, List.nodup_cons] at hn
    rcases List.mem_cons.mp hp with h | h
    · subst h
      exact List.find?_cons_of_pos _ (by simp)
    · have hne : ¬(a.path == p.path) = true := by
        simp only [beq_iff_eq]
        intro hc
        exact hn.1 (hc ▸ List.mem_map_of_mem (fun x => x.path) h)
      rw [@List.find?_cons_of_neg _ (fun r => r.path == p.path) a l hne]
      exact ih hn.2 h

/-- With unique paths, the page found by path is the unique member at that path. -/
theorem queryPageByPath_of_mem (db : DB) (hn : (db.pages.map (fun p => p.path)).Nodup)
    (p : PageRow) (hp : p ∈ db.pages) : queryPageByPath db p.path = some p :=
  find?_path_of_mem db.pages hn p hp

theorem queryPageByPath_insertSection (db : DB) (pid : Nat) (sl hd c : String)
    (t : Nat) (e : List Int) (q : String) :
    queryPageByPath (insertSection db pid sl hd c t e) q = queryPageByPath db q := rfl

theorem queryPageByPath_deleteSections (db : DB) (pid : Nat) (q : String) :
    queryPageByPath (deleteSections db pid) q = queryPageByPath db q := rfl

theorem sectionsOfPage_deleteSections_self (db : DB) (pid : Nat) :
    sectionsOfPage (deleteSections db pid) pid = [] := by
  unfold sectionsOfPage deleteSections
  simp only [List.filter_filter]
  apply List.filter_eq_nil_iff.mpr
  intro a _
  simp [bne]

theorem sectionsOfPage_deleteSections_other (db : DB) (pid q : Nat) (h : q ≠ pid) :
    sectionsOfPage (deleteSections db pid) q = sectionsOfPage db q := by
  unfold sectionsOfPage deleteSections
  simp only [List.filter_filter]
  apply List.filter_congr
  intro a _
  by_cases ha : a.page_id = q
  · subst ha; simp [bne, h]
  · simp [ha]

theorem sectionsOfPage_mapPages (db : DB) (pid : Nat) (f : PageRow → PageRow) (q : Nat) :
    sectionsOfPage (mapPages db pid f) q = sectionsOfPage db q := rfl

theorem sectionsOfPage_insertSection (db : DB) (pid : Nat) (sl hd c : String)
    (t : Nat) (e : List Int) (q : Nat) :
    sectionsOfPage (insertSection db pid sl hd c t e) q
      = sectionsOfPage db q ++
        (if pid = q then [⟨db.nextSectionId, pid, sl, hd, c, t, e⟩] else []) := by
  unfold sectionsOfPage insertSection
  rw [List.filter_append]
  congr 1
  by_cases hq : pid = q
  · simp [List.filter_cons, hq]
  · simp [List.filter_cons, hq]

/-! ### The per-section loop -/

theorem expectedSections_page_id (env : Env) (pid startId : Nat) (chunks : List Chunk) :
    ∀ s ∈ expectedSections env pid startId chunks, s.page_id = pid := by
  induction chunks generalizing startId with
  | nil => intro s hs; cases hs
  | cons c rest ih =>
    intro s hs
    unfold expectedSections at hs
    rcases hemb : env.embed (collapseNewlines c.content) with e | ed
    · rw [hemb] at hs; cases hs
    · rw [hemb] at hs
      rcases List.mem_cons.mp hs with h | h
      · rw [h]
      · exact ih (startId + 1) s h

theorem expectedSections_id_lb (env : Env) (pid startId : Nat) (chunks : List Chunk) :
    ∀ s ∈ expectedSections env pid startId chunks, startId ≤ s.id := by
  induction chunks generalizing startId with
  | nil => intro s hs; cases hs
  | cons c rest ih =>
    intro s hs
    unfold expectedSections at hs
    rcases hemb : env.embed (collapseNewlines c.content) with e | ed
    · rw [hemb] at hs; cases hs
    · rw [hemb] at hs
      rcases List.mem_cons.mp hs with h | h
      · rw [h]
      · exact Nat.le_of_succ_le (ih (startId + 1) s h)

theorem expectedSections_id_ub (env : Env) (pid startId : Nat) (chunks : List Chunk) :
    ∀ s ∈ expectedSections env pid startId chunks,
      s.id < startId + (expectedSections env pid startId chunks).length := by
  induction chunks generalizing startId with
  | nil => intro s hs; cases hs
  | cons c rest ih =>
    intro s hs
    rcases hemb : env.embed (collapseNewlines c.content) with e | ed
    · unfold expectedSections at hs
      rw [hemb] at hs; cases hs
    · unfold expectedSections at hs ⊢
      rw [hemb] at hs ⊢
      rcases List.mem_cons.mp hs with h | h
      · rw [h]; simp only [List.length_cons]; omega
      · have := ih (startId + 1) s h
        simp only [List.length_cons]
        omega

theorem expectedSections_length_of_all (env : Env) (pid startId : Nat) (chunks : List Chunk)
    (h : chunks.all (embedOk env) = true) :
    (expectedSections env pid startId chunks).length = chunks.length := by
  induction chunks generalizing startId with
  | nil => rfl
  | cons c rest ih =>
    rw [List.all_cons, Bool.and_eq_true] at h
    unfold expectedSections
    rcases hemb : env.embed (collapseNewlines c.content) with e | ed
    · exfalso
      have : embedOk env c = false := by unfold embedOk; rw [hemb]
      rw [this] at h; cases h.1
    · simp only [List.length_cons]
      rw [ih (startId + 1) h.2]

theorem expectedSections_length_lt_of_not_all (env : Env) (pid startId : Nat)
    (chunks : List Chunk) (h : chunks.all (embedOk env) = false) :
    (expectedSections env pid startId chunks).length < chunks.length := by
  induction chunks generalizing startId with
  | nil => cases h
  | cons c rest ih =>
    rw [List.all_cons, Bool.and_eq_false_iff] at h
    unfold expectedSections
    rcases hemb : env.embed (collapseNewlines c.content) with e | ed
    · simp
    · have hok : embedOk env c = true := by unfold embedOk; rw [hemb]
      rcases h with h | h
      · rw [hok] at h; cases h
      · simp only [List.length_cons]
        exact Nat.succ_lt_succ (ih (startId + 1) h)

theorem expectedSections_fields_of_all (env : Env) (pid startId : Nat) (chunks : List Chunk)
    (h : chunks.all (embedOk env) = true) :
    (expectedSections env pid startId chunks).map (fun s => (s.slug, s.heading, s.content))
      = chunks.map (fun c => (c.slug, c.heading, c.content)) := by
  induction chunks generalizing startId with
  | nil => rfl
  | cons c rest ih =>
    rw [List.all_cons, Bool.and_eq_true] at h
    unfold expectedSections
    rcases hemb : env.embed (collapseNewlines c.content) with e | ed
    · exfalso
      have : embedOk env c = false := by unfold embedOk; rw [hemb]
      rw [this] at h; cases h.1
    · simp only [List.map_cons]
      rw [ih (startId + 1) h.2]

theorem expectedCalls_of_all (env : Env) (chunks : List Chunk)
    (h : chunks.all (embedOk env) = true) :
    expectedCalls env chunks = chunks.map (fun c => collapseNewlines c.content) := by
  induction chunks with
  | nil => rfl
  | cons c rest ih =>
    rw [List.all_cons, Bool.and_eq_true] at h
    unfold expectedCalls
    rcases hemb : env.embed (collapseNewlines c.content) with e | ed
    · exfalso
      have : embedOk env c = false := by unfold embedOk; rw [hemb]
      rw [this] at h; cases h.1
    · simp only [List.map_cons]
      rw [ih h.2, hemb]

theorem processSections_eq (env : Env) (pid : Nat) (chunks : List Chunk) (db : DB) :
    processSections env db pid chunks =
      ({ db with
         sections := db.sections ++ expectedSections env pid db.nextSectionId chunks,
         nextSectionId :=
           db.nextSectionId + (expectedSections env pid db.nextSectionId chunks).length },
       expectedSecStates env db pid chunks,
       expectedCalls env chunks,
       chunks.all (embedOk env)) := by
  induction chunks generalizing db with
  | nil =>
    simp [processSections, expectedSections, expectedCalls, expectedSecStates]
  | cons c rest ih =>
    rcases hemb : env.embed (collapseNewlines c.content) with e | ed
    · have hokF : embedOk env c = false := by unfold embedOk; rw [hemb]
      unfold processSections expectedSections expectedCalls expectedSecStates
      simp only [hemb]
      rw [List.all_cons, hokF]
      simp
    · have hokT : embedOk env c = true := by unfold embedOk; rw [hemb]
      unfold processSections expectedSections expectedCalls expectedSecStates
      simp only [hemb, ih]
      rw [List.all_cons, hokT, Bool.true_and]
      simp only [Prod.mk.injEq, insertSection, DB.mk.injEq, List.append_assoc,
        List.singleton_append, List.length_cons, and_true, true_and]
      omega

/-! ### The page upsert -/

/-- The id the upsert returns: the conflicting row's id, or the fresh one. -/
def upsertId (db : DB) (path : String) : Nat :=
  match queryPageByPath db path with
  | some ex => ex.id
  | none => db.nextPageId

theorem upsertPage_snd (db : DB) (path t s m : String) (par : Option Nat) (v : String)
    (d : Nat) : (upsertPage db path t s m par v d).2 = upsertId db path := by
  unfold upsertPage upsertId queryPageByPath
  rcases h : db.pages.find? (fun r => r.path == path) with _ | ex <;> rw [h]

theorem upsertPage_sections (db : DB) (path t s m : String) (par : Option Nat) (v : String)
    (d : Nat) : (upsertPage db path t s m par v d).1.sections = db.sections := by
  unfold upsertPage
  rcases h : db.pages.find? (fun r => r.path == path) with _ | ex <;> rw [h] <;> rfl

theorem upsertPage_nextSectionId (db : DB) (path t s m : String) (par : Option Nat)
    (v : String) (d : Nat) :
    (upsertPage db path t s m par v d).1.nextSectionId = db.nextSectionId := by
  unfold upsertPage
  rcases h : db.pages.find? (fun r => r.path == path) with _ | ex <;> rw [h] <;> rfl

theorem queryPageByPath_upsert_self (db : DB) (path t s m : String) (par : Option Nat)
    (v : String) (d : Nat) :
    queryPageByPath (upsertPage db path t s m par v d).1 path
      = some ⟨upsertId db path, path, none, t, s, m, par, v, d⟩ := by
  rcases h : queryPageByPath db path with _ | ex
  · have h' := h
    unfold queryPageByPath at h'
    unfold upsertPage upsertId
    rw [h, h']
    simp only []
    conv_lhs => unfold queryPageByPath
    simp only []
    rw [find?_append_of_none _ _ _ h']
    exact List.find?_cons_of_pos _ (by simp)
  · have h' := h
    unfold queryPageByPath at h'
    have hm := queryPageByPath_mem db path ex h
    unfold upsertPage upsertId
    rw [h, h']
    simp only []
    rw [queryPageByPath_mapPages]
    · rw [h]
      simp [hm.2]
    · intro r; rfl

theorem queryPageByPath_upsert_other (db : DB)
    (hid : (db.pages.map (fun p => p.id)).Nodup)
    (path t s m : String) (par : Option Nat) (v : String) (d : Nat)
    (q : String) (hq : q ≠ path) :
    queryPageByPath (upsertPage db path t s m par v d).1 q = queryPageByPath db q := by
  rcases h : queryPageByPath db path with _ | ex
  · have h' := h
    unfold queryPageByPath at h'
    unfold upsertPage
    rw [h']
    conv_lhs => unfold queryPageByPath
    simp only []
    rw [List.find?_append]
    have hnew : (([⟨db.nextPageId, path, none, t, s, m, par, v, d⟩] : List PageRow).find?
        (fun r => r.path == q)) = none := by
      rw [List.find?_eq_none]
      intro x hx
      rcases List.mem_singleton.mp hx with rfl
      simpa using fun hc => hq hc.symm
    rw [hnew]
    unfold queryPageByPath
    rw [Option.or_none]
  · have h' := h
    unfold queryPageByPath at h'
    unfold upsertPage
    rw [h']
    simp only []
    rw [queryPageByPath_mapPages]
    · rcases hrq : queryPageByPath db q with _ | r
      · rfl
      · have hr := queryPageByPath_mem db q r hrq
        have hex := queryPageByPath_mem db path ex h
        have hneq : (r.id == ex.id) = false := by
          rw [beq_eq_false_iff_ne]
          intro hc
          have : r = ex := List.inj_on_of_nodup_map hid hr.1 hex.1 hc
          rw [this] at hr
          exact hq (hr.2 ▸ hex.2 ▸ rfl)
        simp [hneq]
        intro hc
        rw [beq_eq_false_iff_ne] at hneq
        exact absurd hc hneq
    · intro r; rfl

theorem sectionsOfPage_upsert (db : DB) (path t s m : String) (par : Option Nat)
    (v : String) (d : Nat) (i : Nat) :
    sectionsOfPage (upsertPage db path t s m par v d).1 i = sectionsOfPage db i := by
  unfold sectionsOfPage
  rw [upsertPage_sections]

theorem upsertId_mem (db : DB) (path t s m : String) (par : Option Nat) (v : String)
    (d : Nat) :
    upsertId db path ∈ (upsertPage db path t s m par v d).1.pages.map (fun p => p.id) := by
  rcases h : queryPageByPath db path with _ | ex
  · have h' := h
    unfold queryPageByPath at h'
    unfold upsertPage upsertId
    rw [h, h']
    simp only [mapPages]
    rw [List.mem_map]
    exact ⟨⟨db.nextPageId, path, none, t, s, m, par, v, d⟩, by simp, rfl⟩
  · have h' := h
    unfold queryPageByPath at h'
    have hm := queryPageByPath_mem db path ex h
    unfold upsertPage upsertId
    rw [h, h']
    simp only [mapPages]
    rw [List.map_map, List.mem_map]
    refine ⟨ex, hm.1, ?_⟩
    simp only [Function.comp_apply]
    by_cases hc : (ex.id == ex.id) = true
    · simp [hc]
    · simp at hc

theorem WF_upsertPage (db : DB) (hWF : WF db) (path t s m : String) (par : Option Nat)
    (v : String) (d : Nat) : WF (upsertPage db path t s m par v d).1 := by
  obtain ⟨hpath, hid, hpb, hsb, hfk⟩ := hWF
  unfold upsertPage
  rcases h : db.pages.find? (fun r => r.path == path) with _ | ex
  · rw [h]
    refine ⟨?_, ?_, ?_, ?_, ?_⟩
    · simp only [List.map_append]
      rw [List.nodup_append]
      refine ⟨hpath, by simp, ?_⟩
      intro x hx hx2
      simp only [List.map_cons, List.map_nil, List.mem_singleton] at hx2
      subst hx2
      rw [List.mem_map] at hx
      obtain ⟨p, hp, hpp⟩ := hx
      have := (List.find?_eq_none.mp h) p hp
      simp only [beq_iff_eq] at this
      exact this hpp
    · simp only [List.map_append]
      rw [List.nodup_append]
      refine ⟨hid, by simp, ?_⟩
      intro x hx hx2
      simp only [List.map_cons, List.map_nil, List.mem_singleton] at hx2
      subst hx2
      rw [List.mem_map] at hx
      obtain ⟨p, hp, hpp⟩ := hx
      exact absurd (hpp ▸ hpb p hp) (Nat.lt_irrefl _)
    · intro p hp
      rcases List.mem_append.mp hp with hp | hp
      · exact Nat.lt_succ_of_lt (hpb p hp)
      · rcases List.mem_singleton.mp hp with rfl
        exact Nat.lt_succ_self _
    · exact hsb
    · intro sct hs
      have := hfk sct hs
      simp only [List.map_append, List.mem_append]
      exact Or.inl this
  · rw [h]
    refine ⟨?_, ?_, ?_, hsb, ?_⟩
    · rw [mapPages_pages_map_path]
      · exact hpath
      · intro r; rfl
    · rw [mapPages_pages_map_id]
      · exact hid
      · intro r; rfl
    · intro p hp
      simp only [mapPages, List.mem_map] at hp
      obtain ⟨a, ha, hap⟩ := hp
      have : p.id = a.id := by
        subst hap
        by_cases hc : (a.id == ex.id) = true <;> simp [hc]
      rw [this]
      exact hpb a ha
    · intro sct hs
      rw [mapPages_pages_map_id]
      · exact hfk sct hs
      · intro r; rfl

/-! ### Frame and well-formedness preservation lemmas -/

theorem queryPageByPath_mapPages_frame (db : DB) (pid : Nat) (f : PageRow → PageRow)
    (hfp : ∀ r, (f r).path = r.path) (q : String)
    (hnot : ∀ p ∈ db.pages, p.path = q → p.id ≠ pid) :
    queryPageByPath (mapPages db pid f) q = queryPageByPath db q := by
  rw [queryPageByPath_mapPages db pid f hfp q]
  rcases hq : queryPageByPath db q with _ | r
  · rfl
  · have hr := queryPageByPath_mem db q r hq
    have hf : (r.id == pid) = false := by
      rw [beq_eq_false_iff_ne]
      exact hnot r hr.1 hr.2
    rw [Option.map_some']
    rw [if_neg]
    simp [hf]

theorem WF_mapPages (db : DB) (hWF : WF db) (pid : Nat) (f : PageRow → PageRow)
    (hfp : ∀ r, (f r).path = r.path) (hfi : ∀ r, (f r).id = r.id) :
    WF (mapPages db pid f) := by
  obtain ⟨hpath, hid, hpb, hsb, hfk⟩ := hWF
  refine ⟨?_, ?_, ?_, hsb, ?_⟩
  · rw [mapPages_pages_map_path db pid f hfp]
    exact hpath
  · rw [mapPages_pages_map_id db pid f hfi]
    exact hid
  · intro p hp
    simp only [mapPages, List.mem_map] at hp
    obtain ⟨a, ha, hap⟩ := hp
    have : p.id = a.id := by
      subst hap
      by_cases hc : (a.id == pid) = true <;> simp [hc, hfi]
    rw [this]
    exact hpb a ha
  · intro sct hs
    rw [mapPages_pages_map_id db pid f hfi]
    exact hfk sct hs

theorem WF_updatePageParent (db : DB) (hWF : WF db) (pid : Nat) (par : Option Nat) :
    WF (updatePageParent db pid par) :=
  WF_mapPages db hWF pid _ (fun r => rfl) (fun r => rfl)

theorem WF_updatePageMeta (db : DB) (hWF : WF db) (pid : Nat) (t s m : String) (v : String)
    (d : Nat) : WF (updatePageMeta db pid t s m v d) :=
  WF_mapPages db hWF pid _ (fun r => rfl) (fun r => rfl)

theorem WF_updatePageChecksum (db : DB) (hWF : WF db) (pid : Nat) (c : String) :
    WF (updatePageChecksum db pid c) :=
  WF_mapPages db hWF pid _ (fun r => rfl) (fun r => rfl)

theorem WF_deleteSections (db : DB) (hWF : WF db) (pid : Nat) : WF (deleteSections db pid) := by
  obtain ⟨hpath, hid, hpb, hsb, hfk⟩ := hWF
  refine ⟨hpath, hid, hpb, ?_, ?_⟩
  · intro s hs
    exact hsb s (List.mem_of_mem_filter hs)
  · intro s hs
    exact hfk s (List.mem_of_mem_filter hs)

theorem WF_appendSections (db : DB) (hWF : WF db) (env : Env) (pid : Nat)
    (chunks : List Chunk) (hpid : pid ∈ db.pages.map (fun p => p.id)) :
    WF { db with
         sections := db.sections ++ expectedSections env pid db.nextSectionId chunks,
         nextSectionId :=
           db.nextSectionId + (expectedSections env pid db.nextSectionId chunks).length } := by
  obtain ⟨hpath, hid, hpb, hsb, hfk⟩ := hWF
  refine ⟨hpath, hid, hpb, ?_, ?_⟩
  · intro s hs
    rcases List.mem_append.mp hs with h | h
    · exact Nat.lt_of_lt_of_le (hsb s h) (Nat.le_add_right _ _)
    · exact expectedSections_id_ub env pid db.nextSectionId chunks s h
  · intro s hs
    rcases List.mem_append.mp hs with h | h
    · exact hfk s h
    · rw [expectedSections_page_id env pid db.nextSectionId chunks s h]
      exact hpid

theorem queryPageByPath_set_sections (db : DB) (s' : List SectionRow) (n : Nat) (q : String) :
    queryPageByPath { db with sections := s', nextSectionId := n } q = queryPageByPath db q :=
  rfl

theorem sectionsOfPage_set_sections (db : DB) (s' : List SectionRow) (n : Nat) (i : Nat) :
    sectionsOfPage { db with sections := s', nextSectionId := n } i
      = s'.filter (fun s => s.page_id == i) := rfl

theorem sectionsOfPage_updatePageChecksum (db : DB) (pid : Nat) (c : String) (i : Nat) :
    sectionsOfPage (updatePageChecksum db pid c) i = sectionsOfPage db i := rfl

theorem queryPageByPath_updatePageChecksum (db : DB) (pid : Nat) (c : String) (q : String) :
    queryPageByPath (updatePageChecksum db pid c) q
      = (queryPageByPath db q).map
          (fun r => if r.id == pid then { r with checksum := some c } else r) := by
  unfold updatePageChecksum
  rw [queryPageByPath_mapPages]
  intro r; rfl

theorem expectedSections_filter_self (env : Env) (pid sid : Nat) (chunks : List Chunk) :
    (expectedSections env pid sid chunks).filter (fun s => s.page_id == pid)
      = expectedSections env pid sid chunks := by
  rw [List.filter_eq_self]
  intro a ha
  have := expectedSections_page_id env pid sid chunks a ha
  simp [this]

theorem expectedSections_filter_other (env : Env) (pid sid : Nat) (chunks : List Chunk)
    (i : Nat) (h : i ≠ pid) :
    (expectedSections env pid sid chunks).filter (fun s => s.page_id == i) = [] := by
  rw [List.filter_eq_nil_iff]
  intro a ha
  have := expectedSections_page_id env pid sid chunks a ha
  simp [this, Ne.symm h]

/-! ### Characterization of the changed/forced/new path -/

/-- The parent page id the resync path resolves (main.ts lines 78-79). -/
def resyncParentId (db : DB) (src : SourceEntry) : Option Nat :=
  (src.parentPath.bind (fun pp => queryPageByPath db pp)).map (fun p => p.id)

/-- The store right after the page upsert of the resync path. -/
def resyncUp1 (ctx : RunCtx) (src : SourceEntry) (lr : LoadResult) (db : DB) : DB :=
  (upsertPage db src.path src.type src.source lr.meta (resyncParentId db src)
    ctx.refreshVersion ctx.refreshDate).1

/-- The store after the upsert and the per-section loop of the resync path. -/
def resyncDbE (env : Env) (ctx : RunCtx) (src : SourceEntry) (lr : LoadResult) (db : DB) :
    DB :=
  { resyncUp1 ctx src lr db with
    sections := (resyncUp1 ctx src lr db).sections ++
      expectedSections env (upsertId db src.path)
        (resyncUp1 ctx src lr db).nextSectionId lr.sections,
    nextSectionId := (resyncUp1 ctx src lr db).nextSectionId +
      (expectedSections env (upsertId db src.path)
        (resyncUp1 ctx src lr db).nextSectionId lr.sections).length }

theorem resyncPage_def (env : Env) (ctx : RunCtx) (src : SourceEntry) (lr : LoadResult)
    (db : DB) :
    resyncPage env ctx src lr db =
      (if lr.sections.all (embedOk env) = true then
        (updatePageChecksum (resyncDbE env ctx src lr db) (upsertId db src.path) lr.checksum,
         resyncUp1 ctx src lr db ::
           expectedSecStates env (resyncUp1 ctx src lr db) (upsertId db src.path) lr.sections
           ++ [updatePageChecksum (resyncDbE env ctx src lr db) (upsertId db src.path)
                 lr.checksum],
         expectedCalls env lr.sections)
       else
        (resyncDbE env ctx src lr db,
         resyncUp1 ctx src lr db ::
           expectedSecStates env (resyncUp1 ctx src lr db) (upsertId db src.path) lr.sections,
         expectedCalls env lr.sections)) := by
  simp only [resyncPage, resyncDbE, resyncUp1, resyncParentId, processSections_eq,
    upsertPage_snd]

theorem resyncPage_calls (env : Env) (ctx : RunCtx) (src : SourceEntry) (lr : LoadResult)
    (db : DB) : (resyncPage env ctx src lr db).2.2 = expectedCalls env lr.sections := by
  rw [resyncPage_def]
  by_cases h : lr.sections.all (embedOk env) = true
  · rw [if_pos h]
  · rw [if_neg h]

theorem resyncPage_query_self (env : Env) (ctx : RunCtx) (src : SourceEntry)
    (lr : LoadResult) (db : DB) :
    queryPageByPath (resyncPage env ctx src lr db).1 src.path
      = some ⟨upsertId db src.path, src.path,
          (if lr.sections.all (embedOk env) = true then some lr.checksum else none),
          src.type, src.source, lr.meta, resyncParentId db src,
          ctx.refreshVersion, ctx.refreshDate⟩ := by
  have hq : queryPageByPath (resyncDbE env ctx src lr db) src.path
      = some ⟨upsertId db src.path, src.path, none, src.type, src.source, lr.meta,
          resyncParentId db src, ctx.refreshVersion, ctx.refreshDate⟩ := by
    unfold resyncDbE
    rw [queryPageByPath_set_sections]
    unfold resyncUp1
    exact queryPageByPath_upsert_self db src.path src.type src.source lr.meta
      (resyncParentId db src) ctx.refreshVersion ctx.refreshDate
  rw [resyncPage_def]
  by_cases h : lr.sections.all (embedOk env) = true
  · rw [if_pos h, if_pos h]
    simp only []
    rw [queryPageByPath_updatePageChecksum, hq, Option.map_some']
    simp
  · rw [if_neg h, if_neg h]
    simp only []
    exact hq

theorem resyncPage_sections_self (env : Env) (ctx : RunCtx) (src : SourceEntry)
    (lr : LoadResult) (db : DB)
    (hempty : sectionsOfPage db (upsertId db src.path) = []) :
    sectionsOfPage (resyncPage env ctx src lr db).1 (upsertId db src.path)
      = expectedSections env (upsertId db src.path) db.nextSectionId lr.sections := by
  have key : sectionsOfPage (resyncDbE env ctx src lr db) (upsertId db src.path)
      = expectedSections env (upsertId db src.path) db.nextSectionId lr.sections := by
    unfold resyncDbE
    rw [sectionsOfPage_set_sections, List.filter_append]
    have h1 : (resyncUp1 ctx src lr db).sections.filter
        (fun s => s.page_id == upsertId db src.path) = [] := by
      unfold resyncUp1
      rw [upsertPage_sections]
      exact hempty
    rw [h1, expectedSections_filter_self]
    unfold resyncUp1
    rw [upsertPage_nextSectionId]
    exact List.nil_append _
  rw [resyncPage_def]
  by_cases h : lr.sections.all (embedOk env) = true
  · rw [if_pos h]
    simp only []
    rw [sectionsOfPage_updatePageChecksum]
    exact key
  · rw [if_neg h]
    simp only []
    exact key

theorem resyncPage_WF (env : Env) (ctx : RunCtx) (src : SourceEntry) (lr : LoadResult)
    (db : DB) (hWF : WF db) : WF (resyncPage env ctx src lr db).1 := by
  have hUP1 : WF (resyncUp1 ctx src lr db) := by
    unfold resyncUp1
    exact WF_upsertPage db hWF src.path src.type src.source lr.meta
      (resyncParentId db src) ctx.refreshVersion ctx.refreshDate
  have hpid : upsertId db src.path ∈ (resyncUp1 ctx src lr db).pages.map (fun p => p.id) := by
    unfold resyncUp1
    exact upsertId_mem db src.path src.type src.source lr.meta
      (resyncParentId db src) ctx.refreshVersion ctx.refreshDate
  have hDbE : WF (resyncDbE env ctx src lr db) := by
    unfold resyncDbE
    exact WF_appendSections (resyncUp1 ctx src lr db) hUP1 env (upsertId db src.path)
      lr.sections hpid
  rw [resyncPage_def]
  by_cases h : lr.sections.all (embedOk env) = true
  · rw [if_pos h]
    simp only []
    exact WF_updatePageChecksum _ hDbE _ _
  · rw [if_neg h]
    simp only []
    exact hDbE

theorem resyncPage_query_frame (env : Env) (ctx : RunCtx) (src : SourceEntry)
    (lr : LoadResult) (db : DB) (hWF : WF db) (q : String) (hq : q ≠ src.path) :
    queryPageByPath (resyncPage env ctx src lr db).1 q = queryPageByPath db q := by
  have hDbEq : queryPageByPath (resyncDbE env ctx src lr db) q = queryPageByPath db q := by
    unfold resyncDbE
    rw [queryPageByPath_set_sections]
    unfold resyncUp1
    exact queryPageByPath_upsert_other db hWF.2.1 src.path src.type src.source lr.meta
      (resyncParentId db src) ctx.refreshVersion ctx.refreshDate q hq
  rw [resyncPage_def]
  by_cases h : lr.sections.all (embedOk env) = true
  · rw [if_pos h]
    simp only []
    rw [queryPageByPath_updatePageChecksum, hDbEq]
    rcases hr : queryPageByPath db q with _ | r
    · rfl
    · have hrm := queryPageByPath_mem db q r hr
      have hne : (r.id == upsertId db src.path) = false := by
        rw [beq_eq_false_iff_ne]
        unfold upsertId
        rcases hex : queryPageByPath db src.path with _ | ex
        · show r.id ≠ db.nextPageId
          have := hWF.2.2.1 r hrm.1
          omega
        · show r.id ≠ ex.id
          have hexm := queryPageByPath_mem db src.path ex hex
          intro hc
          have heq : r = ex := List.inj_on_of_nodup_map hWF.2.1 hrm.1 hexm.1 hc
          rw [heq] at hrm
          exact hq (by rw [← hrm.2, hexm.2])
      rw [Option.map_some', if_neg]
      simp [hne]
  · rw [if_neg h]
    simp only []
    exact hDbEq

theorem resyncPage_sections_frame (env : Env) (ctx : RunCtx) (src : SourceEntry)
    (lr : LoadResult) (db : DB) (i : Nat) (hi : i ≠ upsertId db src.path) :
    sectionsOfPage (resyncPage env ctx src lr db).1 i = sectionsOfPage db i := by
  have key : sectionsOfPage (resyncDbE env ctx src lr db) i = sectionsOfPage db i := by
    unfold resyncDbE
    rw [sectionsOfPage_set_sections, List.filter_append,
      expectedSections_filter_other _ _ _ _ i hi]
    unfold resyncUp1
    rw [upsertPage_sections]
    rw [List.append_nil]
    rfl
  rw [resyncPage_def]
  by_cases h : lr.sections.all (embedOk env) = true
  · rw [if_pos h]
    simp only []
    rw [sectionsOfPage_updatePageChecksum]
    exact key
  · rw [if_neg h]
    simp only []
    exact key

/-! ### Characterization of one source's processing -/

theorem queryPageByPath_updatePageParent (db : DB) (pid : Nat) (par : Option Nat)
    (q : String) :
    queryPageByPath (updatePageParent db pid par) q
      = (queryPageByPath db q).map
          (fun r => if r.id == pid then { r with parent_page_id := par } else r) := by
  unfold updatePageParent
  rw [queryPageByPath_mapPages]
  intro r; rfl

theorem queryPageByPath_updatePageMeta (db : DB) (pid : Nat) (t s m : String) (v : String)
    (d : Nat) (q : String) :
    queryPageByPath (updatePageMeta db pid t s m v d) q
      = (queryPageByPath db q).map
          (fun r => if r.id == pid then
            { r with type := t, source := s, meta := m, version := v, last_refresh := d }
           else r) := by
  unfold updatePageMeta
  rw [queryPageByPath_mapPages]
  intro r; rfl

theorem sectionsOfPage_eq_of_sections (dbA dbB : DB) (h : dbA.sections = dbB.sections)
    (i : Nat) : sectionsOfPage dbA i = sectionsOfPage dbB i := by
  unfold sectionsOfPage
  rw [h]

theorem updatePageParent_sections (db : DB) (pid : Nat) (par : Option Nat) :
    (updatePageParent db pid par).sections = db.sections := rfl

theorem updatePageMeta_sections (db : DB) (pid : Nat) (t s m : String) (v : String)
    (d : Nat) : (updatePageMeta db pid t s m v d).sections = db.sections := rfl

theorem processSource_load_error (env : Env) (ctx : RunCtx) (r : Bool) (src : SourceEntry)
    (db : DB) (e : String) (h : env.load src.path = .error e) :
    processSource env ctx r src db = (db, [], []) := by
  unfold processSource
  rw [h]

theorem processSource_meta_def (env : Env) (ctx : RunCtx) (r : Bool) (src : SourceEntry)
    (db : DB) (lr : LoadResult) (ex : PageRow)
    (hl : env.load src.path = .ok lr)
    (hq : queryPageByPath db src.path = some ex)
    (hcond : (!r && (ex.checksum == some lr.checksum)) = true) :
    processSource env ctx r src db =
      (if (((ex.parent_page_id.bind (fun i => queryPageById db i)).map (fun p => p.path))
          != src.parentPath) = true then
        (updatePageMeta (updatePageParent db ex.id (resyncParentId db src)) ex.id
           src.type src.source lr.meta ctx.refreshVersion ctx.refreshDate,
         [updatePageParent db ex.id (resyncParentId db src),
          updatePageMeta (updatePageParent db ex.id (resyncParentId db src)) ex.id
            src.type src.source lr.meta ctx.refreshVersion ctx.refreshDate],
         [])
       else
        (updatePageMeta db ex.id src.type src.source lr.meta ctx.refreshVersion
           ctx.refreshDate,
         [updatePageMeta db ex.id src.type src.source lr.meta ctx.refreshVersion
            ctx.refreshDate],
         [])) := by
  simp only [processSource, hl, hq, resyncParentId]
  rw [if_pos hcond]
  by_cases hch : (((ex.parent_page_id.bind (fun i => queryPageById db i)).map
      (fun p => p.path)) != src.parentPath) = true
  · simp only [if_pos hch]
    rfl
  · simp only [if_neg hch]
    rfl

theorem processSource_resync_existing (env : Env) (ctx : RunCtx) (r : Bool)
    (src : SourceEntry) (db : DB) (lr : LoadResult) (ex : PageRow)
    (hl : env.load src.path = .ok lr)
    (hq : queryPageByPath db src.path = some ex)
    (hcond : (!r && (ex.checksum == some lr.checksum)) = false) :
    processSource env ctx r src db =
      ((resyncPage env ctx src lr (deleteSections db ex.id)).1,
       deleteSections db ex.id :: (resyncPage env ctx src lr (deleteSections db ex.id)).2.1,
       (resyncPage env ctx src lr (deleteSections db ex.id)).2.2) := by
  simp only [processSource, hl, hq]
  rw [if_neg (by simp [hcond])]

theorem processSource_resync_new (env : Env) (ctx : RunCtx) (r : Bool) (src : SourceEntry)
    (db : DB) (lr : LoadResult)
    (hl : env.load src.path = .ok lr)
    (hq : queryPageByPath db src.path = none) :
    processSource env ctx r src db = resyncPage env ctx src lr db := by
  simp only [processSource, hl, hq]

theorem bool_eq_false_of_ne_true {b : Bool} (h : ¬(b = true)) : b = false := by
  cases b
  · rfl
  · exact absurd rfl h

theorem upsertId_of_some (db : DB) (path : String) (ex : PageRow)
    (h : queryPageByPath db path = some ex) : upsertId db path = ex.id := by
  unfold upsertId
  rw [h]

theorem upsertId_of_none (db : DB) (path : String)
    (h : queryPageByPath db path = none) : upsertId db path = db.nextPageId := by
  unfold upsertId
  rw [h]

theorem upsertId_deleteSections (db : DB) (i : Nat) (path : String) :
    upsertId (deleteSections db i) path = upsertId db path := rfl

theorem path_ne_id_ne (db : DB) (hid : (db.pages.map (fun p => p.id)).Nodup)
    (ex : PageRow) (hex : ex ∈ db.pages) (q : String) (hq : q ≠ ex.path) :
    ∀ p ∈ db.pages, p.path = q → p.id ≠ ex.id := by
  intro p hp hpq hc
  have heq : p = ex := List.inj_on_of_nodup_map hid hp hex hc
  rw [heq] at hpq
  exact hq hpq.symm

theorem WF_fresh_sections (db : DB) (hWF : WF db) :
    sectionsOfPage db db.nextPageId = [] := by
  unfold sectionsOfPage
  rw [List.filter_eq_nil_iff]
  intro s hs
  have hmem := hWF.2.2.2.2 s hs
  rw [List.mem_map] at hmem
  obtain ⟨p, hp, hpid⟩ := hmem
  have hlt := hWF.2.2.1 p hp
  simp only [beq_iff_eq]
  omega

theorem processSource_WF (env : Env) (ctx : RunCtx) (r : Bool) (src : SourceEntry)
    (db : DB) (hWF : WF db) : WF (processSource env ctx r src db).1 := by
  rcases hl : env.load src.path with e | lr
  · rw [processSource_load_error env ctx r src db e hl]
    exact hWF
  · rcases hqq : queryPageByPath db src.path with _ | ex
    · rw [processSource_resync_new env ctx r src db lr hl hqq]
      exact resyncPage_WF env ctx src lr db hWF
    · by_cases hcond : (!r && (ex.checksum == some lr.checksum)) = true
      · rw [processSource_meta_def env ctx r src db lr ex hl hqq hcond]
        by_cases hch : (((ex.parent_page_id.bind (fun i => queryPageById db i)).map
            (fun p => p.path)) != src.parentPath) = true
        · rw [if_pos hch]
          exact WF_updatePageMeta _ (WF_updatePageParent db hWF ex.id _) ex.id _ _ _ _ _
        · rw [if_neg hch]
          exact WF_updatePageMeta db hWF ex.id _ _ _ _ _
      · rw [processSource_resync_existing env ctx r src db lr ex hl hqq
          (bool_eq_false_of_ne_true hcond)]
        exact resyncPage_WF env ctx src lr (deleteSections db ex.id)
          (WF_deleteSections db hWF ex.id)

theorem processSource_query_frame (env : Env) (ctx : RunCtx) (r : Bool) (src : SourceEntry)
    (db : DB) (hWF : WF db) (q : String) (hq : q ≠ src.path) :
    queryPageByPath (processSource env ctx r src db).1 q = queryPageByPath db q := by
  rcases hl : env.load src.path with e | lr
  · rw [processSource_load_error env ctx r src db e hl]
  · rcases hqq : queryPageByPath db src.path with _ | ex
    · rw [processSource_resync_new env ctx r src db lr hl hqq]
      exact resyncPage_query_frame env ctx src lr db hWF q hq
    · have hexm := queryPageByPath_mem db src.path ex hqq
      have hnot : ∀ p ∈ db.pages, p.path = q → p.id ≠ ex.id :=
        path_ne_id_ne db hWF.2.1 ex hexm.1 q (fun hc => hq (hc.trans hexm.2))
      by_cases hcond : (!r && (ex.checksum == some lr.checksum)) = true
      · rw [processSource_meta_def env ctx r src db lr ex hl hqq hcond]
        by_cases hch : (((ex.parent_page_id.bind (fun i => queryPageById db i)).map
            (fun p => p.path)) != src.parentPath) = true
        · rw [if_pos hch]
          simp only []
          rw [queryPageByPath_updatePageMeta, queryPageByPath_updatePageParent]
          rcases hr : queryPageByPath db q with _ | rr
          · rfl
          · have hrm := queryPageByPath_mem db q rr hr
            have hne : rr.id ≠ ex.id := hnot rr hrm.1 hrm.2
            simp [hne]
        · rw [if_neg hch]
          simp only []
          rw [queryPageByPath_updatePageMeta]
          rcases hr : queryPageByPath db q with _ | rr
          · rfl
          · have hrm := queryPageByPath_mem db q rr hr
            have hne : rr.id ≠ ex.id := hnot rr hrm.1 hrm.2
            simp [hne]
      · rw [processSource_resync_existing env ctx r src db lr ex hl hqq
          (bool_eq_false_of_ne_true hcond)]
        exact resyncPage_query_frame env ctx src lr (deleteSections db ex.id)
          (WF_deleteSections db hWF ex.id) q hq

theorem processSource_sections_frame (env : Env) (ctx : RunCtx) (r : Bool)
    (src : SourceEntry) (db : DB) (hWF : WF db) (q : String) (pg : PageRow)
    (hq : q ≠ src.path) (hpg : queryPageByPath db q = some pg) :
    sectionsOfPage (processSource env ctx r src db).1 pg.id = sectionsOfPage db pg.id := by
  have hpgm := queryPageByPath_mem db q pg hpg
  rcases hl : env.load src.path with e | lr
  · rw [processSource_load_error env ctx r src db e hl]
  · rcases hqq : queryPageByPath db src.path with _ | ex
    · rw [processSource_resync_new env ctx r src db lr hl hqq]
      apply resyncPage_sections_frame
      rw [upsertId_of_none db src.path hqq]
      have := hWF.2.2.1 pg hpgm.1
      omega
    · have hexm := queryPageByPath_mem db src.path ex hqq
      have hidne : pg.id ≠ ex.id := by
        intro hc
        have heq : pg = ex := List.inj_on_of_nodup_map hWF.2.1 hpgm.1 hexm.1 hc
        rw [heq] at hpgm
        exact hq (by rw [← hpgm.2, hexm.2])
      by_cases hcond : (!r && (ex.checksum == some lr.checksum)) = true
      · rw [processSource_meta_def env ctx r src db lr ex hl hqq hcond]
        by_cases hch : (((ex.parent_page_id.bind (fun i => queryPageById db i)).map
            (fun p => p.path)) != src.parentPath) = true
        · rw [if_pos hch]
          exact sectionsOfPage_eq_of_sections _ db rfl pg.id
        · rw [if_neg hch]
          exact sectionsOfPage_eq_of_sections _ db rfl pg.id
      · rw [processSource_resync_existing env ctx r src db lr ex hl hqq
          (bool_eq_false_of_ne_true hcond)]
        have h1 := resyncPage_sections_frame env ctx src lr (deleteSections db ex.id) pg.id
          (by rw [upsertId_deleteSections, upsertId_of_some db src.path ex hqq]; exact hidne)
        exact h1.trans (sectionsOfPage_deleteSections_other db ex.id pg.id hidne)

theorem processSource_self (env : Env) (ctx : RunCtx) (r : Bool) (src : SourceEntry)
    (db : DB) (hWF : WF db) (lr : LoadResult) (hl : env.load src.path = .ok lr) :
    ∃ p, queryPageByPath (processSource env ctx r src db).1 src.path = some p
      ∧ p.version = ctx.refreshVersion
      ∧ (if metaCond r (queryPageByPath db src.path) lr.checksum = true then
           ∃ ex, queryPageByPath db src.path = some ex ∧ p.id = ex.id
             ∧ p.checksum = ex.checksum ∧ ex.checksum = some lr.checksum
             ∧ sectionsOfPage (processSource env ctx r src db).1 p.id
                 = sectionsOfPage db ex.id
         else
           p.checksum = (if lr.sections.all (embedOk env) = true
               then some lr.checksum else none)
           ∧ ∃ startId, sectionsOfPage (processSource env ctx r src db).1 p.id
               = expectedSections env p.id startId lr.sections) := by
  rcases hqq : queryPageByPath db src.path with _ | ex
  · have hmc : metaCond r none lr.checksum = false := by
      unfold metaCond
      simp
    rw [processSource_resync_new env ctx r src db lr hl hqq]
    refine ⟨_, resyncPage_query_self env ctx src lr db, rfl, ?_⟩
    rw [hmc, if_neg (by simp)]
    refine ⟨rfl, db.nextSectionId, ?_⟩
    exact resyncPage_sections_self env ctx src lr db
      (by rw [upsertId_of_none db src.path hqq]; exact WF_fresh_sections db hWF)
  · by_cases hcond : (!r && (ex.checksum == some lr.checksum)) = true
    · have hmc : metaCond r (some ex) lr.checksum = true := hcond
      have hchk : ex.checksum = some lr.checksum := by
        rw [Bool.and_eq_true] at hcond
        exact beq_iff_eq.mp hcond.2
      rw [processSource_meta_def env ctx r src db lr ex hl hqq hcond]
      by_cases hch : (((ex.parent_page_id.bind (fun i => queryPageById db i)).map
          (fun p => p.path)) != src.parentPath) = true
      · rw [if_pos hch]
        simp only []
        rw [queryPageByPath_updatePageMeta, queryPageByPath_updatePageParent, hqq,
          Option.map_some', if_pos (by simp : (ex.id == ex.id) = true),
          Option.map_some', if_pos (by simp : (({ ex with
            parent_page_id := resyncParentId db src } : PageRow).id == ex.id) = true)]
        refine ⟨_, rfl, rfl, ?_⟩
        rw [hmc, if_pos rfl]
        exact ⟨ex, rfl, rfl, rfl, hchk, sectionsOfPage_eq_of_sections _ db rfl ex.id⟩
      · rw [if_neg hch]
        simp only []
        rw [queryPageByPath_updatePageMeta, hqq, Option.map_some',
          if_pos (by simp : (ex.id == ex.id) = true)]
        refine ⟨_, rfl, rfl, ?_⟩
        rw [hmc, if_pos rfl]
        exact ⟨ex, rfl, rfl, rfl, hchk, sectionsOfPage_eq_of_sections _ db rfl ex.id⟩
    · have hcond' := bool_eq_false_of_ne_true hcond
      have hmc : metaCond r (some ex) lr.checksum = false := hcond'
      rw [processSource_resync_existing env ctx r src db lr ex hl hqq hcond']
      refine ⟨_, resyncPage_query_self env ctx src lr (deleteSections db ex.id), rfl, ?_⟩
      rw [hmc, if_neg (by simp)]
      refine ⟨rfl, db.nextSectionId, ?_⟩
      exact resyncPage_sections_self env ctx src lr (deleteSections db ex.id)
        (by rw [upsertId_deleteSections, upsertId_of_some db src.path ex hqq]
            exact sectionsOfPage_deleteSections_self db ex.id)

theorem processSource_calls (env : Env) (ctx : RunCtx) (r : Bool) (src : SourceEntry)
    (db : DB) :
    (processSource env ctx r src db).2.2 = expectedSourceCalls env r db src := by
  unfold expectedSourceCalls
  rcases hl : env.load src.path with e | lr
  · rw [processSource_load_error env ctx r src db e hl]
  · simp only []
    rcases hqq : queryPageByPath db src.path with _ | ex
    · rw [processSource_resync_new env ctx r src db lr hl hqq, resyncPage_calls,
        if_neg (by unfold metaCond; simp)]
    · by_cases hcond : (!r && (ex.checksum == some lr.checksum)) = true
      · have hmc : metaCond r (some ex) lr.checksum = true := hcond
        rw [processSource_meta_def env ctx r src db lr ex hl hqq hcond, if_pos hmc]
        by_cases hch : (((ex.parent_page_id.bind (fun i => queryPageById db i)).map
            (fun p => p.path)) != src.parentPath) = true
        · rw [if_pos hch]
        · rw [if_neg hch]
      · have hcond' := bool_eq_false_of_ne_true hcond
        have hmc : metaCond r (some ex) lr.checksum = false := hcond'
        rw [processSource_resync_existing env ctx r src db lr ex hl hqq hcond',
          resyncPage_calls, if_neg (by rw [hmc]; simp)]

/-! ### The per-source loop over the whole batch -/

theorem flatMap_congr {α β : Type} (l : List α) (f g : α → List β)
    (h : ∀ a ∈ l, f a = g a) : l.flatMap f = l.flatMap g := by
  induction l with
  | nil => rfl
  | cons a t ih =>
    rw [List.flatMap_cons, List.flatMap_cons, h a (by simp),
      ih (fun x hx => h x (by simp [hx]))]

theorem runLoop_cons (env : Env) (ctx : RunCtx) (r : Bool) (src : SourceEntry)
    (rest : List SourceEntry) (db : DB) :
    runLoop env ctx r (src :: rest) db
      = ((runLoop env ctx r rest (processSource env ctx r src db).1).1,
         (processSource env ctx r src db).2.2
           ++ (runLoop env ctx r rest (processSource env ctx r src db).1).2) := by
  simp only [runLoop]

theorem expectedSourceCalls_congr (env : Env) (r : Bool) (dbA dbB : DB) (s : SourceEntry)
    (h : queryPageByPath dbA s.path = queryPageByPath dbB s.path) :
    expectedSourceCalls env r dbA s = expectedSourceCalls env r dbB s := by
  unfold expectedSourceCalls
  rw [h]

theorem runLoop_spec (env : Env) (ctx : RunCtx) (r : Bool) :
    ∀ (srcs : List SourceEntry) (db : DB), WF db →
    ((srcs.map (fun s => s.path)).Nodup) →
    (∀ src ∈ srcs, ∃ lr, env.load src.path = .ok lr) →
    WF (runLoop env ctx r srcs db).1
    ∧ (∀ q, (∀ src ∈ srcs, q ≠ src.path) →
        queryPageByPath (runLoop env ctx r srcs db).1 q = queryPageByPath db q)
    ∧ (∀ q pg, (∀ src ∈ srcs, q ≠ src.path) → queryPageByPath db q = some pg →
        sectionsOfPage (runLoop env ctx r srcs db).1 pg.id = sectionsOfPage db pg.id)
    ∧ (∀ src ∈ srcs, ∀ lr, env.load src.path = .ok lr →
        ∃ p, queryPageByPath (runLoop env ctx r srcs db).1 src.path = some p
          ∧ p.version = ctx.refreshVersion
          ∧ (if metaCond r (queryPageByPath db src.path) lr.checksum = true then
               ∃ ex, queryPageByPath db src.path = some ex ∧ p.id = ex.id
                 ∧ p.checksum = ex.checksum ∧ ex.checksum = some lr.checksum
                 ∧ sectionsOfPage (runLoop env ctx r srcs db).1 p.id
                     = sectionsOfPage db ex.id
             else
               p.checksum = (if lr.sections.all (embedOk env) = true
                   then some lr.checksum else none)
               ∧ ∃ startId, sectionsOfPage (runLoop env ctx r srcs db).1 p.id
                   = expectedSections env p.id startId lr.sections))
    ∧ (runLoop env ctx r srcs db).2
        = srcs.flatMap (fun s => expectedSourceCalls env r db s) := by
  intro srcs
  induction srcs with
  | nil =>
    intro db hWF _ _
    refine ⟨hWF, fun q _ => rfl, fun q pg _ _ => rfl, ?_, rfl⟩
    intro src hs
    cases hs
  | cons src rest ih =>
    intro db hWF hnd hload
    simp only [List.map_cons, List.nodup_cons] at hnd
    have hne : ∀ s ∈ rest, s.path ≠ src.path := by
      intro s hs hc
      exact hnd.1 (hc ▸ List.mem_map_of_mem (fun x => x.path) hs)
    have hloadr : ∀ s ∈ rest, ∃ lr, env.load s.path = .ok lr := by
      intro s hs
      exact hload s (List.mem_cons_of_mem src hs)
    have hWF1 := processSource_WF env ctx r src db hWF
    obtain ⟨ih1, ih2, ih3, ih4, ih5⟩ :=
      ih (processSource env ctx r src db).1 hWF1 hnd.2 hloadr
    rw [runLoop_cons]
    refine ⟨ih1, ?_, ?_, ?_, ?_⟩
    · intro q hq
      have h1 := ih2 q (fun s hs => hq s (List.mem_cons_of_mem src hs))
      have h2 := processSource_query_frame env ctx r src db hWF q (hq src (List.mem_cons_self src rest))
      exact h1.trans h2
    · intro q pg hq hpg
      have hq1 : q ≠ src.path := hq src (List.mem_cons_self src rest)
      have h2 := processSource_query_frame env ctx r src db hWF q hq1
      have h3 := ih3 q pg (fun s hs => hq s (List.mem_cons_of_mem src hs))
        (h2.trans hpg)
      exact h3.trans (processSource_sections_frame env ctx r src db hWF q pg hq1 hpg)
    · intro s hs lr hl
      rcases List.mem_cons.mp hs with rfl | hsr
      · -- the head source
        obtain ⟨p, hp1, hp2, hp3⟩ := processSource_self env ctx r s db hWF lr hl
        have hnotin : ∀ x ∈ rest, s.path ≠ x.path := fun x hx => (hne x hx).symm
        have hq1 : queryPageByPath (runLoop env ctx r rest
            (processSource env ctx r s db).1).1 s.path
              = some p := (ih2 s.path hnotin).trans hp1
        have hs1 : sectionsOfPage (runLoop env ctx r rest
            (processSource env ctx r s db).1).1 p.id
              = sectionsOfPage (processSource env ctx r s db).1 p.id :=
          ih3 s.path p hnotin hp1
        refine ⟨p, hq1, hp2, ?_⟩
        by_cases hmc : metaCond r (queryPageByPath db s.path) lr.checksum = true
        · rw [if_pos hmc]
          rw [if_pos hmc] at hp3
          obtain ⟨ex, hex1, hex2, hex3, hex4, hex5⟩ := hp3
          exact ⟨ex, hex1, hex2, hex3, hex4, hs1.trans hex5⟩
        · rw [if_neg hmc]
          rw [if_neg hmc] at hp3
          obtain ⟨hchk, startId, hsec⟩ := hp3
          exact ⟨hchk, startId, hs1.trans hsec⟩
      · -- a source of the tail
        have hq1 : queryPageByPath (processSource env ctx r src db).1 s.path
            = queryPageByPath db s.path :=
          processSource_query_frame env ctx r src db hWF s.path (hne s hsr)
        obtain ⟨p, hp1, hp2, hp3⟩ := ih4 s hsr lr hl
        rw [hq1] at hp3
        refine ⟨p, hp1, hp2, ?_⟩
        by_cases hmc : metaCond r (queryPageByPath db s.path) lr.checksum = true
        · rw [if_pos hmc]
          rw [if_pos hmc] at hp3
          obtain ⟨ex, hex1, hex2, hex3, hex4, hex5⟩ := hp3
          refine ⟨ex, hex1, hex2, hex3, hex4, ?_⟩
          have := processSource_sections_frame env ctx r src db hWF s.path ex
            (hne s hsr) hex1
          exact hex5.trans this
        · rw [if_neg hmc]
          rw [if_neg hmc] at hp3
          exact hp3
    · simp only []
      rw [List.flatMap_cons, ih5, processSource_calls]
      congr 1
      apply flatMap_congr
      intro s hs
      exact expectedSourceCalls_congr env r (processSource env ctx r src db).1 db s
        (processSource_query_frame env ctx r src db hWF s.path (hne s hs))

/-! ### The final version sweep -/

theorem sweepPages_version (db : DB) (v : String) :
    ∀ p ∈ (sweepPages db v).pages, p.version = v := by
  intro p hp
  unfold sweepPages at hp
  simp only [] at hp
  have := (List.mem_filter.mp hp).2
  simpa using this

theorem sweepPages_mem (db : DB) (v : String) (p : PageRow)
    (hp : p ∈ (sweepPages db v).pages) : p ∈ db.pages := by
  unfold sweepPages at hp
  simp only [] at hp
  exact List.mem_of_mem_filter hp

theorem sweepPages_keep (db : DB) (v : String) (p : PageRow) (hp : p ∈ db.pages)
    (hv : p.version = v) : p ∈ (sweepPages db v).pages := by
  unfold sweepPages
  simp only []
  exact List.mem_filter.mpr ⟨hp, by simp [hv]⟩

theorem sweepPages_pages_of_all (db : DB) (v : String)
    (hall : ∀ p ∈ db.pages, p.version = v) : (sweepPages db v).pages = db.pages := by
  unfold sweepPages
  simp only []
  exact List.filter_eq_self.mpr (fun p hp => by simp [hall p hp])

theorem sweepPages_sections_of_all (db : DB) (v : String)
    (hall : ∀ p ∈ db.pages, p.version = v) : (sweepPages db v).sections = db.sections := by
  unfold sweepPages
  simp only []
  have hrem : db.pages.filter (fun p => p.version != v) = [] :=
    List.filter_eq_nil_iff.mpr (fun p hp => by simp [hall p hp])
  rw [hrem]
  exact List.filter_eq_self.mpr (fun s _ => by simp)

theorem WF_sweepPages (db : DB) (hWF : WF db) (v : String) : WF (sweepPages db v) := by
  obtain ⟨hpath, hid, hpb, hsb, hfk⟩ := hWF
  refine ⟨?_, ?_, ?_, ?_, ?_⟩
  · exact List.Nodup.sublist (List.Sublist.map _ (List.filter_sublist db.pages)) hpath
  · exact List.Nodup.sublist (List.Sublist.map _ (List.filter_sublist db.pages)) hid
  · intro p hp
    exact hpb p (sweepPages_mem db v p hp)
  · intro s hs
    unfold sweepPages at hs
    simp only [] at hs
    exact hsb s (List.mem_of_mem_filter hs)
  · intro s hs
    unfold sweepPages at hs
    simp only [] at hs
    have hmem := List.mem_filter.mp hs
    have horig := hfk s hmem.1
    rw [List.mem_map] at horig
    obtain ⟨p, hp, hpid⟩ := horig
    have hkeep : p.version = v := by
      by_contra hne
      have hinrem : s.page_id ∈ (db.pages.filter (fun p => p.version != v)).map
          (fun p => p.id) := by
        rw [List.mem_map]
        exact ⟨p, List.mem_filter.mpr ⟨hp, by simp [hne]⟩, hpid⟩
      have := hmem.2
      simp only [Bool.not_eq_true'] at this
      rw [← Bool.not_eq_true] at this
      exact this (by simpa using hinrem)
    rw [List.mem_map]
    exact ⟨p, List.mem_filter.mpr ⟨hp, by simp [hkeep]⟩, hpid⟩

theorem queryPageByPath_sweep_of_version (db : DB) (hWF : WF db) (v : String)
    (q : String) (p : PageRow) (hq : queryPageByPath db q = some p)
    (hv : p.version = v) : queryPageByPath (sweepPages db v) q = some p := by
  have hm := queryPageByPath_mem db q p hq
  have hkeep := sweepPages_keep db v p hm.1 hv
  have hnd : ((sweepPages db v).pages.map (fun x => x.path)).Nodup :=
    List.Nodup.sublist (List.Sublist.map _ (List.filter_sublist db.pages)) hWF.1
  have := queryPageByPath_of_mem (sweepPages db v) hnd p hkeep
  rw [hm.2] at this
  exact this

theorem sectionsOfPage_sweep_of_kept (db : DB) (hWF : WF db) (v : String) (p : PageRow)
    (hp : p ∈ db.pages) (hv : p.version = v) :
    sectionsOfPage (sweepPages db v) p.id = sectionsOfPage db p.id := by
  unfold sectionsOfPage sweepPages
  simp only [List.filter_filter]
  apply List.filter_congr
  intro s _
  by_cases hsp : s.page_id = p.id
  · have hnotrem : p.id ∉ (db.pages.filter (fun x => x.version != v)).map
        (fun x => x.id) := by
      intro hmem
      rw [List.mem_map] at hmem
      obtain ⟨pr, hpr, hpid⟩ := hmem
      have hprm := List.mem_filter.mp hpr
      have : pr = p := List.inj_on_of_nodup_map hWF.2.1 hprm.1 hp hpid
      rw [this] at hprm
      have := hprm.2
      simp [hv] at this
    simp [hsp, hnotrem]
  · simp [hsp]

/-! ### The metadata-only branch over a whole batch -/

theorem metaCondB_true_elim (env : Env) (r : Bool) (db : DB) (s : SourceEntry)
    (h : metaCondB env r db s = true) :
    ∃ lr ex, env.load s.path = .ok lr ∧ queryPageByPath db s.path = some ex
      ∧ (!r && (ex.checksum == some lr.checksum)) = true := by
  rcases hl : env.load s.path with e | lr
  · unfold metaCondB at h
    rw [hl] at h
    cases h
  · rcases hq : queryPageByPath db s.path with _ | ex
    · unfold metaCondB metaCond at h
      rw [hl, hq] at h
      simp at h
    · unfold metaCondB metaCond at h
      rw [hl, hq] at h
      exact ⟨lr, ex, rfl, rfl, h⟩

theorem metaCondB_true_intro (env : Env) (db : DB) (s : SourceEntry) (lr : LoadResult)
    (ex : PageRow) (hl : env.load s.path = .ok lr)
    (hq : queryPageByPath db s.path = some ex)
    (hchk : ex.checksum = some lr.checksum) : metaCondB env false db s = true := by
  unfold metaCondB metaCond
  rw [hl, hq]
  simp [hchk]

theorem expectedSourceCalls_eq_nil_of_metaCondB (env : Env) (r : Bool) (db : DB)
    (s : SourceEntry) (h : metaCondB env r db s = true) :
    expectedSourceCalls env r db s = [] := by
  obtain ⟨lr, ex, hl, hq, hcond⟩ := metaCondB_true_elim env r db s h
  unfold expectedSourceCalls
  rw [hl]
  simp only []
  rw [if_pos]
  rw [hq]
  exact hcond

theorem processSource_meta_sections (env : Env) (ctx : RunCtx) (r : Bool)
    (src : SourceEntry) (db : DB) (lr : LoadResult) (ex : PageRow)
    (hl : env.load src.path = .ok lr)
    (hq : queryPageByPath db src.path = some ex)
    (hcond : (!r && (ex.checksum == some lr.checksum)) = true) :
    (processSource env ctx r src db).1.sections = db.sections := by
  rw [processSource_meta_def env ctx r src db lr ex hl hq hcond]
  by_cases hch : (((ex.parent_page_id.bind (fun i => queryPageById db i)).map
      (fun p => p.path)) != src.parentPath) = true
  · rw [if_pos hch]
    rfl
  · rw [if_neg hch]
    rfl

theorem runLoop_allMeta_sections (env : Env) (ctx : RunCtx) (r : Bool) :
    ∀ (srcs : List SourceEntry) (db : DB), WF db →
    ((srcs.map (fun s => s.path)).Nodup) →
    (∀ s ∈ srcs, metaCondB env r db s = true) →
    (runLoop env ctx r srcs db).1.sections = db.sections := by
  intro srcs
  induction srcs with
  | nil =>
    intro db _ _ _
    rfl
  | cons src rest ih =>
    intro db hWF hnd hmeta
    simp only [List.map_cons, List.nodup_cons] at hnd
    have hne : ∀ s ∈ rest, s.path ≠ src.path := by
      intro s hs hc
      exact hnd.1 (hc ▸ List.mem_map_of_mem (fun x => x.path) hs)
    obtain ⟨lr, ex, hl, hq, hcond⟩ :=
      metaCondB_true_elim env r db src (hmeta src (List.mem_cons_self src rest))
    have hsec1 : (processSource env ctx r src db).1.sections = db.sections :=
      processSource_meta_sections env ctx r src db lr ex hl hq hcond
    have hWF1 := processSource_WF env ctx r src db hWF
    have hmeta1 : ∀ s ∈ rest, metaCondB env r (processSource env ctx r src db).1 s
        = true := by
      intro s hs
      have hq1 := processSource_query_frame env ctx r src db hWF s.path (hne s hs)
      unfold metaCondB
      rw [hq1]
      exact hmeta s (List.mem_cons_of_mem src hs)
    rw [runLoop_cons]
    exact (ih (processSource env ctx r src db).1 hWF1 hnd.2 hmeta1).trans hsec1

theorem flatMap_eq_nil {α β : Type} (l : List α) (f : α → List β)
    (h : ∀ a ∈ l, f a = []) : l.flatMap f = [] := by
  induction l with
  | nil => rfl
  | cons a t ih =>
    rw [List.flatMap_cons, h a (by simp), ih (fun x hx => h x (by simp [hx]))]
    rfl

/-! ### The whole run -/

theorem generateEmbeddings_ok (env : Env) (ctx : RunCtx) (props : GenerateEmbeddingsProps)
    (db : DB) (hc : env.connect props.postgresConnectionString = .ok ())
    (hcl : env.close = .ok ()) :
    generateEmbeddings env ctx props db
      = .ok (sweepPages (runLoop env ctx props.shouldRefresh
               (discoverSources (env.walk props.docsRootPath)) db).1 ctx.refreshVersion,
             (runLoop env ctx props.shouldRefresh
               (discoverSources (env.walk props.docsRootPath)) db).2) := by
  unfold generateEmbeddings
  rw [hc, hcl]

theorem generateEmbeddings_connect_error (env : Env) (ctx : RunCtx)
    (props : GenerateEmbeddingsProps) (db : DB) (e : String)
    (hc : env.connect props.postgresConnectionString = .error e) :
    generateEmbeddings env ctx props db = .error e := by
  unfold generateEmbeddings
  rw [hc]

theorem generateEmbeddings_close_error (env : Env) (ctx : RunCtx)
    (props : GenerateEmbeddingsProps) (db : DB) (e : String)
    (hc : env.connect props.postgresConnectionString = .ok ())
    (hcl : env.close = .error e) :
    generateEmbeddings env ctx props db = .error e := by
  unfold generateEmbeddings
  rw [hc, hcl]

/-- The combined after-run facts used by the batch-level claims. -/
theorem generateEmbeddings_post (env : Env) (ctx : RunCtx)
    (props : GenerateEmbeddingsProps) (db : DB)
    (hc : env.connect props.postgresConnectionString = .ok ())
    (hcl : env.close = .ok ())
    (hWF : WF db)
    (hnd : (((discoverSources (env.walk props.docsRootPath)).map
        (fun s => s.path)).Nodup))
    (hload : ∀ src ∈ discoverSources (env.walk props.docsRootPath),
        ∃ lr, env.load src.path = .ok lr)
    (hfresh : ∀ p ∈ db.pages, p.version ≠ ctx.refreshVersion) :
    ∃ out calls, generateEmbeddings env ctx props db = .ok (out, calls)
      ∧ WF out
      ∧ (∀ p ∈ out.pages, p.version = ctx.refreshVersion)
      ∧ (∀ p ∈ out.pages, ∃ s ∈ discoverSources (env.walk props.docsRootPath),
           s.path = p.path)
      ∧ (∀ s ∈ discoverSources (env.walk props.docsRootPath),
           ∀ lr, env.load s.path = .ok lr →
           ∃ p, queryPageByPath out s.path = some p ∧ p ∈ out.pages
             ∧ p.version = ctx.refreshVersion
             ∧ (lr.sections.all (embedOk env) = true → p.checksum = some lr.checksum)) := by
  obtain ⟨hL1, hL2, hL3, hL4, hL5⟩ := runLoop_spec env ctx props.shouldRefresh
    (discoverSources (env.walk props.docsRootPath)) db hWF hnd hload
  refine ⟨_, _, generateEmbeddings_ok env ctx props db hc hcl, ?_, ?_, ?_, ?_⟩
  · exact WF_sweepPages _ hL1 _
  · exact sweepPages_version _ _
  · intro p hp
    have hpl := sweepPages_mem _ _ p hp
    have hver := sweepPages_version _ _ p hp
    by_cases hin : ∃ s ∈ discoverSources (env.walk props.docsRootPath), s.path = p.path
    · exact hin
    · exfalso
      push_neg at hin
      have hfr := hL2 p.path (fun s hs => fun hc2 => hin s hs hc2.symm)
      have hself := queryPageByPath_of_mem _ hL1.1 p hpl
      rw [hself] at hfr
      have hm := queryPageByPath_mem db p.path p hfr.symm
      exact hfresh p hm.1 hver
  · intro s hs lr hl
    obtain ⟨p, hp1, hp2, hp3⟩ := hL4 s hs lr hl
    have hpm := queryPageByPath_mem _ s.path p hp1
    refine ⟨p, queryPageByPath_sweep_of_version _ hL1 _ s.path p hp1 hp2, ?_, hp2, ?_⟩
    · exact sweepPages_keep _ _ p hpm.1 hp2
    · intro hall
      by_cases hmc : metaCond props.shouldRefresh (queryPageByPath db s.path)
          lr.checksum = true
      · rw [if_pos hmc] at hp3
        obtain ⟨ex, _, _, hex3, hex4, _⟩ := hp3
        exact hex3.trans hex4
      · rw [if_neg hmc] at hp3
        rw [hp3.1, if_pos hall]

/-! ### Remaining auxiliary lemmas -/

theorem queryPageByPath_congr_pages (dbA dbB : DB) (h : dbA.pages = dbB.pages)
    (q : String) : queryPageByPath dbA q = queryPageByPath dbB q := by
  unfold queryPageByPath
  rw [h]

theorem expectedSecStates_pages (env : Env) :
    ∀ (chunks : List Chunk) (db : DB) (pid : Nat),
    ∀ t ∈ expectedSecStates env db pid chunks, t.pages = db.pages := by
  intro chunks
  induction chunks with
  | nil =>
    intro db pid t ht
    cases ht
  | cons c rest ih =>
    intro db pid t ht
    rcases hemb : env.embed (collapseNewlines c.content) with e | ed
    · unfold expectedSecStates at ht
      rw [hemb] at ht
      cases ht
    · unfold expectedSecStates at ht
      rw [hemb] at ht
      rcases List.mem_cons.mp ht with rfl | h
      · rfl
      · exact ih (insertSection db pid c.slug c.heading c.content ed.total_tokens
          ed.embedding) pid t h

theorem expectedSections_embed (env : Env) (pid : Nat) :
    ∀ (chunks : List Chunk) (sid : Nat),
    ∀ s ∈ expectedSections env pid sid chunks,
      ∃ ed, env.embed (collapseNewlines s.content) = .ok ed
        ∧ s.embedding = ed.embedding ∧ s.token_count = ed.total_tokens := by
  intro chunks
  induction chunks with
  | nil =>
    intro sid s hs
    cases hs
  | cons c rest ih =>
    intro sid s hs
    rcases hemb : env.embed (collapseNewlines c.content) with e | ed
    · unfold expectedSections at hs
      rw [hemb] at hs
      cases hs
    · unfold expectedSections at hs
      rw [hemb] at hs
      rcases List.mem_cons.mp hs with rfl | h
      · exact ⟨ed, hemb, rfl, rfl⟩
      · exact ih (sid + 1) s h

theorem map_if_comp (l : List PageRow) (pid : Nat) (f g : PageRow → PageRow)
    (hfi : ∀ r, (f r).id = r.id) :
    (l.map (fun r => if r.id == pid then f r else r)).map
        (fun r => if r.id == pid then g r else r)
      = l.map (fun r => if r.id == pid then g (f r) else r) := by
  rw [List.map_map]
  apply List.map_congr_left
  intro a _
  simp only [Function.comp_apply]
  by_cases h : (a.id == pid) = true
  · simp [h, hfi]
  · simp [h]

theorem metaCond_of_metaCondB_false (env : Env) (r : Bool) (db : DB) (s : SourceEntry)
    (lr : LoadResult) (hl : env.load s.path = .ok lr)
    (h : metaCondB env r db s = false) :
    metaCond r (queryPageByPath db s.path) lr.checksum = false := by
  unfold metaCondB at h
  rw [hl] at h
  exact h

theorem metaCond_some_eq (r : Bool) (ex : PageRow) (chk : String) :
    metaCond r (some ex) chk = (!r && (ex.checksum == some chk)) := rfl

/-! ### Store operation failures

The store performs every query through `client.query`, any of which can throw
inside the per-source try of main.ts lines 38-134 and be caught by the catch
of line 129. The following fault-injected semantics mirrors the per-source
body with the store calls numbered in source order; `sfail = some n` makes
the n-th store call of the source throw, `none` is a healthy store. -/

/-- Whether the store's n-th query call of the current source succeeds:
`sfail = some n` models exactly that `client.query` call throwing. -/
def storeOk (sfail : Option Nat) (n : Nat) : Bool :=
  !(sfail == some n)

/-- The per-section loop of main.ts lines 95-126 against a fallible store:
each chunk is normalized, embedded, and inserted by the store call numbered
next; a provider failure or a throwing INSERT rethrows out of the loop,
leaving the earlier inserts in place. Returns the store at the exit point,
the number of the next store call, and whether every section was embedded
and inserted. -/
def processSectionsF (env : Env) (sfail : Option Nat) (pid : Nat) :
    DB → Nat → List Chunk → DB × Nat × Bool
  | db, n, [] => (db, n, true)
  | db, n, c :: rest =>
    let input := collapseNewlines c.content
    match env.embed input with
    | .error _ => (db, n, false)
    | .ok ed =>
      if storeOk sfail n then
        processSectionsF env sfail pid
          (insertSection db pid c.slug c.heading c.content ed.total_tokens ed.embedding)
          (n + 1) rest
      else (db, n, false)

/-- The changed/forced/new path of main.ts lines 78-128 against a fallible
store, `n` numbering this source's next store call: the parent SELECT of
line 78, then the upsert of line 81, then one INSERT per section, then the
checksum UPDATE of line 128. A throwing call propagates to the per-source
catch, so the result is the store exactly as the preceding calls left it: a
failure at or before the upsert keeps the incoming store, a failure during
the inserts keeps the inserted prefix (page checksum still NULL), and a
failure of the final checksum UPDATE keeps every section inserted with the
checksum still NULL. -/
def resyncPageF (env : Env) (ctx : RunCtx) (sfail : Option Nat) (src : SourceEntry)
    (lr : LoadResult) (n : Nat) (db : DB) : DB :=
  if storeOk sfail n then
    let parentPage := src.parentPath.bind (fun pp => queryPageByPath db pp)
    if storeOk sfail (n + 1) then
      let up := upsertPage db src.path src.type src.source lr.meta
          (parentPage.map (fun p => p.id)) ctx.refreshVersion ctx.refreshDate
      let r := processSectionsF env sfail up.2 up.1 (n + 2) lr.sections
      if r.2.2 then
        if storeOk sfail r.2.1 then updatePageChecksum r.1 up.2 lr.checksum
        else r.1
      else r.1
    else db
  else db

/-- Processing of one source against a store whose individual query calls can
throw, mirroring the body of main.ts lines 38-134: `sfail = some k` makes the
source's k-th store call throw (call 0 is the page SELECT of line 42; then,
per branch, the calls of lines 46, 53, 56 and 60, or of lines 75, 78, 81, 121
and 128 follow). The per-source catch of line 129 swallows the error, so the
function always returns a store: the one the calls preceding the failure left
behind. -/
def processSourceF (env : Env) (ctx : RunCtx) (shouldRefresh : Bool)
    (sfail : Option Nat) (src : SourceEntry) (db : DB) : DB :=
  match env.load src.path with
  | .error _ => db
  | .ok lr =>
    if storeOk sfail 0 then
      match queryPageByPath db src.path with
      | some ex =>
        if !shouldRefresh && (ex.checksum == some lr.checksum) then
          if storeOk sfail 1 then
            let existingParentPage := ex.parent_page_id.bind (fun i => queryPageById db i)
            let changedParent := (existingParentPage.map (fun p => p.path)) != src.parentPath
            if changedParent then
              if storeOk sfail 2 then
                if storeOk sfail 3 then
                  let db1 := updatePageParent db ex.id
                      ((src.parentPath.bind (fun pp => queryPageByPath db pp)).map
                        (fun p => p.id))
                  if storeOk sfail 4 then
                    updatePageMeta db1 ex.id src.type src.source lr.meta
                      ctx.refreshVersion ctx.refreshDate
                  else db1
                else db
              else db
            else
              if storeOk sfail 2 then
                updatePageMeta db ex.id src.type src.source lr.meta
                  ctx.refreshVersion ctx.refreshDate
              else db
          else db
        else
          if storeOk sfail 1 then
            resyncPageF env ctx sfail src lr 2 (deleteSections db ex.id)
          else db
      | none => resyncPageF env ctx sfail src lr 1 db
    else db

/-- The source loop of main.ts lines 35-135 with a per-source store-failure
schedule: the head of the schedule is the failing store call of the first
source (if any), the tail drives the remaining sources. Each source's failure
is caught inside its own try/catch, so the loop always continues with the
rest of the batch. -/
def runLoopF (env : Env) (ctx : RunCtx) (shouldRefresh : Bool) :
    List (Option Nat) → List SourceEntry → DB → DB
  | _, [], db => db
  | [], src :: rest, db =>
    runLoopF env ctx shouldRefresh [] rest
      (processSourceF env ctx shouldRefresh none src db)
  | sfail :: sched, src :: rest, db =>
    runLoopF env ctx shouldRefresh sched rest
      (processSourceF env ctx shouldRefresh sfail src db)

theorem storeOk_none (n : Nat) : storeOk none n = true := rfl

theorem processSectionsF_none_eq (env : Env) (pid : Nat) :
    ∀ (chunks : List Chunk) (db : DB) (n : Nat),
    (processSectionsF env none pid db n chunks).1 = (processSections env db pid chunks).1
    ∧ (processSectionsF env none pid db n chunks).2.2
        = (processSections env db pid chunks).2.2.2 := by
  intro chunks
  induction chunks with
  | nil => intro db n; exact ⟨rfl, rfl⟩
  | cons c rest ih =>
    intro db n
    rcases hemb : env.embed (collapseNewlines c.content) with e | ed
    · constructor
      · simp only [processSectionsF, processSections, hemb]
      · simp only [processSectionsF, processSections, hemb]
    · constructor
      · simp only [processSectionsF, processSections, hemb]
        rw [if_pos (storeOk_none n)]
        exact (ih _ (n + 1)).1
      · simp only [processSectionsF, processSections, hemb]
        rw [if_pos (storeOk_none n)]
        exact (ih _ (n + 1)).2

theorem processSectionsF_mem (env : Env) (sfail : Option Nat) (pid : Nat) :
    ∀ (chunks : List Chunk) (db : DB) (n : Nat),
    (processSectionsF env sfail pid db n chunks).1
      ∈ db :: expectedSecStates env db pid chunks := by
  intro chunks
  induction chunks with
  | nil => intro db n; exact List.mem_cons_self _ _
  | cons c rest ih =>
    intro db n
    rcases hemb : env.embed (collapseNewlines c.content) with e | ed
    · simp only [processSectionsF, hemb]
      exact List.mem_cons_self _ _
    · simp only [processSectionsF, expectedSecStates, hemb]
      by_cases hsk : storeOk sfail n = true
      · rw [if_pos hsk]
        exact List.mem_cons_of_mem _ (ih _ (n + 1))
      · rw [if_neg hsk]
        exact List.mem_cons_self _ _

theorem processSections_final_mem (env : Env) (pid : Nat) :
    ∀ (chunks : List Chunk) (db : DB),
    (processSections env db pid chunks).1 ∈ db :: expectedSecStates env db pid chunks := by
  intro chunks
  induction chunks with
  | nil => intro db; exact List.mem_cons_self _ _
  | cons c rest ih =>
    intro db
    rcases hemb : env.embed (collapseNewlines c.content) with e | ed
    · simp only [processSections, expectedSecStates, hemb]
      exact List.mem_cons_self _ _
    · simp only [processSections, expectedSecStates, hemb]
      exact List.mem_cons_of_mem _ (ih _)

theorem processSectionsF_ok (env : Env) (sfail : Option Nat) (pid : Nat) :
    ∀ (chunks : List Chunk) (db : DB) (n : Nat),
    (processSectionsF env sfail pid db n chunks).2.2 = true →
    (processSectionsF env sfail pid db n chunks).1 = (processSections env db pid chunks).1
    ∧ chunks.all (embedOk env) = true := by
  intro chunks
  induction chunks with
  | nil => intro db n _; exact ⟨rfl, rfl⟩
  | cons c rest ih =>
    intro db n hok
    rcases hemb : env.embed (collapseNewlines c.content) with e | ed
    · exfalso
      simp only [processSectionsF, hemb] at hok
      exact Bool.false_ne_true hok
    · simp only [processSectionsF, hemb] at hok ⊢
      by_cases hsk : storeOk sfail n = true
      · rw [if_pos hsk] at hok
        obtain ⟨h1, h2⟩ := ih _ (n + 1) hok
        refine ⟨?_, ?_⟩
        · rw [if_pos hsk]
          simp only [processSections, hemb]
          exact h1
        · rw [List.all_cons]
          have hokT : embedOk env c = true := by unfold embedOk; rw [hemb]
          rw [hokT, Bool.true_and]
          exact h2
      · rw [if_neg hsk] at hok
        exact absurd hok Bool.false_ne_true

theorem resyncPageF_eq (env : Env) (ctx : RunCtx) (sfail : Option Nat) (src : SourceEntry)
    (lr : LoadResult) (n : Nat) (db : DB) :
    resyncPageF env ctx sfail src lr n db =
      if storeOk sfail n = true then
        if storeOk sfail (n + 1) = true then
          if (processSectionsF env sfail (upsertId db src.path) (resyncUp1 ctx src lr db)
              (n + 2) lr.sections).2.2 = true then
            if storeOk sfail (processSectionsF env sfail (upsertId db src.path)
                (resyncUp1 ctx src lr db) (n + 2) lr.sections).2.1 = true then
              updatePageChecksum (processSectionsF env sfail (upsertId db src.path)
                  (resyncUp1 ctx src lr db) (n + 2) lr.sections).1
                (upsertId db src.path) lr.checksum
            else (processSectionsF env sfail (upsertId db src.path)
                (resyncUp1 ctx src lr db) (n + 2) lr.sections).1
          else (processSectionsF env sfail (upsertId db src.path)
              (resyncUp1 ctx src lr db) (n + 2) lr.sections).1
        else db
      else db := by
  simp only [resyncPageF, resyncUp1, resyncParentId, upsertPage_snd]

theorem resyncPageF_none (env : Env) (ctx : RunCtx) (src : SourceEntry) (lr : LoadResult)
    (n : Nat) (db : DB) :
    resyncPageF env ctx none src lr n db = (resyncPage env ctx src lr db).1 := by
  rw [resyncPageF_eq, if_pos (storeOk_none n), if_pos (storeOk_none (n + 1))]
  obtain ⟨h1, h2⟩ := processSectionsF_none_eq env (upsertId db src.path) lr.sections
      (resyncUp1 ctx src lr db) (n + 2)
  rw [resyncPage_def]
  by_cases hall : lr.sections.all (embedOk env) = true
  · have hallF : (processSectionsF env none (upsertId db src.path)
        (resyncUp1 ctx src lr db) (n + 2) lr.sections).2.2 = true := by
      rw [h2, processSections_eq]
      exact hall
    rw [if_pos hallF, if_pos (storeOk_none _), if_pos hall]
    rw [h1, processSections_eq]
    rfl
  · have hallF : (processSectionsF env none (upsertId db src.path)
        (resyncUp1 ctx src lr db) (n + 2) lr.sections).2.2 = false := by
      rw [h2, processSections_eq]
      exact bool_eq_false_of_ne_true hall
    rw [if_neg (by rw [hallF]; exact Bool.false_ne_true), if_neg hall]
    rw [h1, processSections_eq]
    rfl

theorem resyncPageF_mem (env : Env) (ctx : RunCtx) (sfail : Option Nat) (src : SourceEntry)
    (lr : LoadResult) (n : Nat) (db : DB) :
    resyncPageF env ctx sfail src lr n db ∈ db :: (resyncPage env ctx src lr db).2.1 := by
  rw [resyncPageF_eq]
  by_cases h0 : storeOk sfail n = true
  case neg => rw [if_neg h0]; exact List.mem_cons_self _ _
  rw [if_pos h0]
  by_cases h1 : storeOk sfail (n + 1) = true
  case neg => rw [if_neg h1]; exact List.mem_cons_self _ _
  rw [if_pos h1]
  by_cases hok : (processSectionsF env sfail (upsertId db src.path)
      (resyncUp1 ctx src lr db) (n + 2) lr.sections).2.2 = true
  · rw [if_pos hok]
    obtain ⟨hfeq, hall⟩ := processSectionsF_ok env sfail (upsertId db src.path)
        lr.sections (resyncUp1 ctx src lr db) (n + 2) hok
    have hdbE : (processSections env (resyncUp1 ctx src lr db) (upsertId db src.path)
        lr.sections).1 = resyncDbE env ctx src lr db := by
      rw [processSections_eq]
      rfl
    rw [resyncPage_def, if_pos hall]
    simp only []
    by_cases hsk : storeOk sfail (processSectionsF env sfail (upsertId db src.path)
        (resyncUp1 ctx src lr db) (n + 2) lr.sections).2.1 = true
    · rw [if_pos hsk, hfeq, hdbE]
      exact List.mem_cons_of_mem _ (List.mem_cons_of_mem _
        (List.mem_append_right _ (List.mem_singleton.mpr rfl)))
    · rw [if_neg hsk, hfeq]
      have hm := processSections_final_mem env (upsertId db src.path) lr.sections
          (resyncUp1 ctx src lr db)
      rcases List.mem_cons.mp hm with heq | hm2
      · rw [heq]
        exact List.mem_cons_of_mem _ (List.mem_cons_self _ _)
      · exact List.mem_cons_of_mem _ (List.mem_cons_of_mem _ (List.mem_append_left _ hm2))
  · rw [if_neg hok]
    have hm := processSectionsF_mem env sfail (upsertId db src.path) lr.sections
        (resyncUp1 ctx src lr db) (n + 2)
    rw [resyncPage_def]
    by_cases hall : lr.sections.all (embedOk env) = true
    · rw [if_pos hall]
      simp only []
      rcases List.mem_cons.mp hm with heq | hm2
      · rw [heq]
        exact List.mem_cons_of_mem _ (List.mem_cons_self _ _)
      · exact List.mem_cons_of_mem _ (List.mem_cons_of_mem _ (List.mem_append_left _ hm2))
    · rw [if_neg hall]
      simp only []
      rcases List.mem_cons.mp hm with heq | hm2
      · rw [heq]
        exact List.mem_cons_of_mem _ (List.mem_cons_self _ _)
      · exact List.mem_cons_of_mem _ (List.mem_cons_of_mem _ hm2)

theorem processSourceF_mem (env : Env) (ctx : RunCtx) (r : Bool) (src : SourceEntry)
    (db : DB) : ∀ sfail, processSourceF env ctx r sfail src db
      ∈ db :: (processSource env ctx r src db).2.1 := by
  intro sfail
  rcases hl : env.load src.path with e | lr
  · rw [processSource_load_error env ctx r src db e hl]
    simp only [processSourceF, hl]
    exact List.mem_cons_self _ _
  · by_cases h0 : storeOk sfail 0 = true
    case neg =>
      simp only [processSourceF, hl]
      rw [if_neg h0]
      exact List.mem_cons_self _ _
    case pos =>
      rcases hq : queryPageByPath db src.path with _ | ex
      · rw [processSource_resync_new env ctx r src db lr hl hq]
        simp only [processSourceF, hl, hq]
        rw [if_pos h0]
        exact resyncPageF_mem env ctx sfail src lr 1 db
      · by_cases hcond : (!r && (ex.checksum == some lr.checksum)) = true
        · rw [processSource_meta_def env ctx r src db lr ex hl hq hcond]
          simp only [processSourceF, hl, hq]
          rw [if_pos h0, if_pos hcond]
          by_cases h1 : storeOk sfail 1 = true
          case neg =>
            rw [if_neg h1]
            exact List.mem_cons_self _ _
          case pos =>
            rw [if_pos h1]
            by_cases hch : (((ex.parent_page_id.bind (fun i => queryPageById db i)).map
                (fun p => p.path)) != src.parentPath) = true
            · rw [if_pos hch, if_pos hch]
              simp only []
              by_cases h2 : storeOk sfail 2 = true
              case neg => rw [if_neg h2]; exact List.mem_cons_self _ _
              case pos =>
                rw [if_pos h2]
                by_cases h3 : storeOk sfail 3 = true
                case neg => rw [if_neg h3]; exact List.mem_cons_self _ _
                case pos =>
                  rw [if_pos h3]
                  by_cases h4 : storeOk sfail 4 = true
                  · rw [if_pos h4]
                    exact List.mem_cons_of_mem _ (List.mem_cons_of_mem _
                      (List.mem_cons_self _ _))
                  · rw [if_neg h4]
                    exact List.mem_cons_of_mem _ (List.mem_cons_self _ _)
            · rw [if_neg hch, if_neg hch]
              simp only []
              by_cases h2 : storeOk sfail 2 = true
              · rw [if_pos h2]
                exact List.mem_cons_of_mem _ (List.mem_cons_self _ _)
              · rw [if_neg h2]
                exact List.mem_cons_self _ _
        · have hcond' := bool_eq_false_of_ne_true hcond
          rw [processSource_resync_existing env ctx r src db lr ex hl hq hcond']
          simp only [processSourceF, hl, hq]
          rw [if_pos h0, if_neg hcond]
          by_cases h1 : storeOk sfail 1 = true
          · rw [if_pos h1]
            have hm := resyncPageF_mem env ctx sfail src lr 2 (deleteSections db ex.id)
            rcases List.mem_cons.mp hm with heq | hm2
            · rw [heq]
              exact List.mem_cons_of_mem _ (List.mem_cons_self _ _)
            · exact List.mem_cons_of_mem _ (List.mem_cons_of_mem _ hm2)
          · rw [if_neg h1]
            exact List.mem_cons_self _ _

theorem processSourceF_none (env : Env) (ctx : RunCtx) (r : Bool) (src : SourceEntry)
    (db : DB) :
    processSourceF env ctx r none src db = (processSource env ctx r src db).1 := by
  rcases hl : env.load src.path with e | lr
  · rw [processSource_load_error env ctx r src db e hl]
    simp only [processSourceF, hl]
  · rcases hq : queryPageByPath db src.path with _ | ex
    · rw [processSource_resync_new env ctx r src db lr hl hq]
      simp only [processSourceF, hl, hq]
      rw [if_pos (storeOk_none 0)]
      exact resyncPageF_none env ctx src lr 1 db
    · by_cases hcond : (!r && (ex.checksum == some lr.checksum)) = true
      · rw [processSource_meta_def env ctx r src db lr ex hl hq hcond]
        simp only [processSourceF, hl, hq]
        rw [if_pos (storeOk_none 0), if_pos hcond, if_pos (storeOk_none 1)]
        by_cases hch : (((ex.parent_page_id.bind (fun i => queryPageById db i)).map
            (fun p => p.path)) != src.parentPath) = true
        · rw [if_pos hch, if_pos hch, if_pos (storeOk_none 2), if_pos (storeOk_none 3),
            if_pos (storeOk_none 4)]
          rfl
        · rw [if_neg hch, if_neg hch, if_pos (storeOk_none 2)]
      · have hcond' := bool_eq_false_of_ne_true hcond
        rw [processSource_resync_existing env ctx r src db lr ex hl hq hcond']
        simp only [processSourceF, hl, hq]
        rw [if_pos (storeOk_none 0), if_neg hcond, if_pos (storeOk_none 1)]
        exact resyncPageF_none env ctx src lr 2 (deleteSections db ex.id)

/-! ### The claims -/

/-- C10: the produced entry point never reads or binds a refresh flag from its
configuration input: `run()` builds the props bundle from the three action
inputs only, so `generateEmbeddings` always runs with `shouldRefresh = false`
and a forced full resync is unreachable through the published interface. -/
theorem run_never_refreshes (env : Env) (ctx : RunCtx) (db : DB) (inputs : RunInputs) :
    run env ctx db inputs
      = (match generateEmbeddings env ctx
          { shouldRefresh := false,
            postgresConnectionString := inputs.postgresConnectionString,
            openaiKey := inputs.openaiKey,
            docsRootPath := inputs.docsRootPath } db with
         | .ok _ => Outcome.success
         | .error e => Outcome.failed e) := rfl

/-- C9: every error that escapes the per-source isolation (a store connection
failure at connect or at close after the final sweep) is reported by the
top-level entry point as a fatal run failure carrying that first uncaught
error; when the connection-level steps succeed, the run reports success no
matter how many per-source load or embedding failures occurred, so per-source
errors are non-fatal. -/
theorem run_reports_first_uncaught_error (env : Env) (ctx : RunCtx) (db : DB)
    (inputs : RunInputs) :
    (∀ e, env.connect inputs.postgresConnectionString = .error e →
        run env ctx db inputs = Outcome.failed e)
    ∧ (∀ e, env.connect inputs.postgresConnectionString = .ok () →
        env.close = .error e → run env ctx db inputs = Outcome.failed e)
    ∧ (env.connect inputs.postgresConnectionString = .ok () → env.close = .ok () →
        run env ctx db inputs = Outcome.success) := by
  refine ⟨?_, ?_, ?_⟩
  · intro e hc
    unfold run
    rw [generateEmbeddings_connect_error env ctx _ db e hc]
  · intro e hc hcl
    unfold run
    rw [generateEmbeddings_close_error env ctx _ db e hc hcl]
  · intro hc hcl
    unfold run
    rw [generateEmbeddings_ok env ctx _ db hc hcl]

theorem run_reports_first_uncaught_error_witness :
    run ⟨fun _ => .error "connection refused", fun _ => [], fun _ => .error "io",
         fun _ => .error "api", .ok ()⟩ ⟨"v", 0⟩ ⟨[], [], 0, 0⟩ ⟨"pg", "key", "docs"⟩
      = Outcome.failed "connection refused" :=
  (run_reports_first_uncaught_error
    ⟨fun _ => .error "connection refused", fun _ => [], fun _ => .error "io",
     fun _ => .error "api", .ok ()⟩ ⟨"v", 0⟩ ⟨[], [], 0, 0⟩
    ⟨"pg", "key", "docs"⟩).1 "connection refused" rfl

/-- C6: when a source's checksum matches the stored one (with the refresh flag
unset) but its parent path changed, the engine mutates only the
`parent_page_id` field plus the metadata fields (`type`, `source`, `meta`,
`version`, `last_refresh`) of that Page row; its checksum, its id, its path,
every other Page row, and every Section row are left unchanged, and no
provider call is made. -/
theorem reparent_updates_only_parent_and_meta (env : Env) (ctx : RunCtx)
    (src : SourceEntry) (db : DB) (lr : LoadResult) (ex : PageRow)
    (hl : env.load src.path = .ok lr)
    (hq : queryPageByPath db src.path = some ex)
    (hchk : ex.checksum = some lr.checksum)
    (hch : ((ex.parent_page_id.bind (fun i => queryPageById db i)).map (fun p => p.path))
        ≠ src.parentPath) :
    (processSource env ctx false src db).1.pages
      = db.pages.map (fun p => if p.id == ex.id then
          { p with type := src.type, source := src.source, meta := lr.meta,
                   parent_page_id := resyncParentId db src,
                   version := ctx.refreshVersion, last_refresh := ctx.refreshDate }
          else p)
    ∧ (processSource env ctx false src db).1.sections = db.sections
    ∧ (processSource env ctx false src db).2.2 = [] := by
  have hcond : (!false && (ex.checksum == some lr.checksum)) = true := by
    simp [hchk]
  have hchB : (((ex.parent_page_id.bind (fun i => queryPageById db i)).map
      (fun p => p.path)) != src.parentPath) = true := bne_iff_ne.mpr hch
  rw [processSource_meta_def env ctx false src db lr ex hl hq hcond, if_pos hchB]
  refine ⟨?_, rfl, rfl⟩
  show (updatePageMeta (updatePageParent db ex.id (resyncParentId db src)) ex.id
      src.type src.source lr.meta ctx.refreshVersion ctx.refreshDate).pages = _
  unfold updatePageMeta updatePageParent mapPages
  simp only []
  rw [map_if_comp db.pages ex.id]
  intro p
  rfl

theorem reparent_updates_only_parent_and_meta_witness :
    (processSource ⟨fun _ => .ok (), fun _ => [],
        fun _ => .ok ⟨"c1", "m1", []⟩, fun _ => .ok ⟨[1], 1⟩, .ok ()⟩ ⟨"v2", 5⟩ false
        ⟨"markdown", "markdown", "a.md", some "b.md"⟩
        ⟨[⟨0, "a.md", some "c1", "t", "s", "m", none, "v1", 1⟩,
          ⟨1, "b.md", some "c2", "t", "s", "m", none, "v1", 1⟩], [], 2, 0⟩).1.pages
      = ([⟨0, "a.md", some "c1", "t", "s", "m", none, "v1", 1⟩,
          ⟨1, "b.md", some "c2", "t", "s", "m", none, "v1", 1⟩] : List PageRow).map
          (fun p => if p.id == 0 then
            { p with type := "markdown", source := "markdown", meta := "m1",
                     parent_page_id := some 1, version := "v2", last_refresh := 5 }
            else p) :=
  ((reparent_updates_only_parent_and_meta ⟨fun _ => .ok (), fun _ => [],
      fun _ => .ok ⟨"c1", "m1", []⟩, fun _ => .ok ⟨[1], 1⟩, .ok ()⟩ ⟨"v2", 5⟩
      ⟨"markdown", "markdown", "a.md", some "b.md"⟩
      ⟨[⟨0, "a.md", some "c1", "t", "s", "m", none, "v1", 1⟩,
        ⟨1, "b.md", some "c2", "t", "s", "m", none, "v1", 1⟩], [], 2, 0⟩
      ⟨"c1", "m1", []⟩ ⟨0, "a.md", some "c1", "t", "s", "m", none, "v1", 1⟩
      rfl (by decide) rfl (by decide)).1)

/-- C2: checksum-gated regeneration. If the refresh flag is unset and the
stored checksum equals the freshly computed one, the engine makes no provider
call for that source and leaves every Section row untouched; in every other
combination (no existing Page, differing or NULL stored checksum, or the
refresh flag set), and with the provider succeeding on every chunk, the
Page's old Sections (if any) are all deleted and a complete set of Sections is
regenerated with fresh provider results. -/
theorem checksum_gated_regeneration (env : Env) (ctx : RunCtx) (r : Bool)
    (src : SourceEntry) (db : DB) (lr : LoadResult) (hWF : WF db)
    (hl : env.load src.path = .ok lr) :
    (metaCond r (queryPageByPath db src.path) lr.checksum = true →
       (processSource env ctx r src db).2.2 = []
       ∧ (processSource env ctx r src db).1.sections = db.sections)
    ∧ (metaCond r (queryPageByPath db src.path) lr.checksum = false →
       lr.sections.all (embedOk env) = true →
       ∃ p, queryPageByPath (processSource env ctx r src db).1 src.path = some p
         ∧ sectionsOfPage (processSource env ctx r src db).1 p.id
             = expectedSections env p.id db.nextSectionId lr.sections
         ∧ (sectionsOfPage (processSource env ctx r src db).1 p.id).length
             = lr.sections.length
         ∧ (∀ s ∈ sectionsOfPage (processSource env ctx r src db).1 p.id,
              ∃ ed, env.embed (collapseNewlines s.content) = .ok ed
                ∧ s.embedding = ed.embedding ∧ s.token_count = ed.total_tokens)
         ∧ (∀ s ∈ db.sections, s.page_id = p.id →
              s ∉ (processSource env ctx r src db).1.sections)) := by
  constructor
  · intro hmc
    have hmcB : metaCondB env r db src = true := by
      unfold metaCondB
      rw [hl]
      exact hmc
    rcases hq : queryPageByPath db src.path with _ | ex
    · exfalso
      rw [hq] at hmc
      unfold metaCond at hmc
      simp at hmc
    · rw [hq] at hmc
      refine ⟨(processSource_calls env ctx r src db).trans
        (expectedSourceCalls_eq_nil_of_metaCondB env r db src hmcB), ?_⟩
      exact processSource_meta_sections env ctx r src db lr ex hl hq hmc
  · intro hmc hall
    rcases hq : queryPageByPath db src.path with _ | ex
    · rw [processSource_resync_new env ctx r src db lr hl hq]
      have hsec := resyncPage_sections_self env ctx src lr db
        (by rw [upsertId_of_none db src.path hq]; exact WF_fresh_sections db hWF)
      refine ⟨_, resyncPage_query_self env ctx src lr db, hsec, ?_, ?_, ?_⟩
      · rw [hsec]
        exact expectedSections_length_of_all env _ db.nextSectionId lr.sections hall
      · intro s hs
        rw [hsec] at hs
        exact expectedSections_embed env _ lr.sections db.nextSectionId s hs
      · intro s hsdb hpid _
        have hpid2 : s.page_id = upsertId db src.path := hpid
        rw [upsertId_of_none db src.path hq] at hpid2
        have hfk := hWF.2.2.2.2 s hsdb
        rw [List.mem_map] at hfk
        obtain ⟨pp, hpp, hppid⟩ := hfk
        have := hWF.2.2.1 pp hpp
        omega
    · rw [hq] at hmc
      have hcond : (!r && (ex.checksum == some lr.checksum)) = false := hmc
      rw [processSource_resync_existing env ctx r src db lr ex hl hq hcond]
      simp only []
      have hempty0 : sectionsOfPage (deleteSections db ex.id)
          (upsertId (deleteSections db ex.id) src.path) = [] := by
        rw [upsertId_deleteSections, upsertId_of_some db src.path ex hq]
        exact sectionsOfPage_deleteSections_self db ex.id
      have hsec := resyncPage_sections_self env ctx src lr (deleteSections db ex.id)
        hempty0
      refine ⟨_, resyncPage_query_self env ctx src lr (deleteSections db ex.id),
        hsec, ?_, ?_, ?_⟩
      · rw [hsec]
        exact expectedSections_length_of_all env _ _ lr.sections hall
      · intro s hs
        rw [hsec] at hs
        exact expectedSections_embed env _ lr.sections _ s hs
      · intro s hsdb hpid hmem
        have hpid2 : s.page_id = upsertId (deleteSections db ex.id) src.path := hpid
        rw [upsertId_deleteSections, upsertId_of_some db src.path ex hq] at hpid2
        have hup1sec : (resyncUp1 ctx src lr (deleteSections db ex.id)).sections
            = (deleteSections db ex.id).sections := by
          unfold resyncUp1
          exact upsertPage_sections (deleteSections db ex.id) src.path src.type
            src.source lr.meta (resyncParentId (deleteSections db ex.id) src)
            ctx.refreshVersion ctx.refreshDate
        have hmem2 : s ∈ (resyncDbE env ctx src lr (deleteSections db ex.id)).sections := by
          rw [resyncPage_def, if_pos hall] at hmem
          exact hmem
        unfold resyncDbE at hmem2
        simp only [] at hmem2
        rcases List.mem_append.mp hmem2 with h | h
        · rw [hup1sec] at h
          have hcontra := (List.mem_filter.mp h).2
          simp [hpid2] at hcontra
        · have hlb := expectedSections_id_lb env _ _ lr.sections s h
          have hub := hWF.2.2.2.1 s hsdb
          have hnext : (resyncUp1 ctx src lr (deleteSections db ex.id)).nextSectionId
              = db.nextSectionId := by
            unfold resyncUp1
            exact upsertPage_nextSectionId (deleteSections db ex.id) src.path src.type
              src.source lr.meta (resyncParentId (deleteSections db ex.id) src)
              ctx.refreshVersion ctx.refreshDate
          rw [hnext] at hlb
          omega

theorem checksum_gated_regeneration_witness :
    (processSource ⟨fun _ => .ok (), fun _ => [],
        fun _ => .ok ⟨"c1", "m1", [⟨"s1", "h1", "x"⟩]⟩, fun _ => .ok ⟨[2], 3⟩, .ok ()⟩
        ⟨"v2", 5⟩ false ⟨"markdown", "markdown", "a.md", none⟩
        ⟨[⟨0, "a.md", some "c1", "t", "s", "m", none, "v1", 1⟩],
         [⟨0, 0, "s0", "h0", "old", 1, [9]⟩], 1, 1⟩).2.2 = []
    ∧ (processSource ⟨fun _ => .ok (), fun _ => [],
        fun _ => .ok ⟨"c1", "m1", [⟨"s1", "h1", "x"⟩]⟩, fun _ => .ok ⟨[2], 3⟩, .ok ()⟩
        ⟨"v2", 5⟩ false ⟨"markdown", "markdown", "a.md", none⟩
        ⟨[⟨0, "a.md", some "c1", "t", "s", "m", none, "v1", 1⟩],
         [⟨0, 0, "s0", "h0", "old", 1, [9]⟩], 1, 1⟩).1.sections
      = [⟨0, 0, "s0", "h0", "old", 1, [9]⟩] :=
  (checksum_gated_regeneration ⟨fun _ => .ok (), fun _ => [],
      fun _ => .ok ⟨"c1", "m1", [⟨"s1", "h1", "x"⟩]⟩, fun _ => .ok ⟨[2], 3⟩, .ok ()⟩
      ⟨"v2", 5⟩ false ⟨"markdown", "markdown", "a.md", none⟩
      ⟨[⟨0, "a.md", some "c1", "t", "s", "m", none, "v1", 1⟩],
       [⟨0, 0, "s0", "h0", "old", 1, [9]⟩], 1, 1⟩
      ⟨"c1", "m1", [⟨"s1", "h1", "x"⟩]⟩ (by decide) rfl).1 (by decide)

/-- C8 counterexample: with a single chunk whose content is
`"line1\nline2"`, the text sent to the provider is the collapsed
`"line1 line2"`, but the content stored on the inserted Section row is the
original `"line1\nline2"` (main.ts line 120 passes `content`, not `input`),
so the stored content is not the normalized text the claim asserts. -/
theorem stored_content_not_normalized :
    (processSource ⟨fun _ => .ok (), fun _ => [],
        fun _ => .ok ⟨"c", "m", [⟨"s1", "h1", "line1\nline2"⟩]⟩,
        fun _ => .ok ⟨[1], 2⟩, .ok ()⟩ ⟨"v", 0⟩ false
        ⟨"markdown", "markdown", "a.md", none⟩ ⟨[], [], 0, 0⟩).2.2
      = ["line1 line2"]
    ∧ ((processSource ⟨fun _ => .ok (), fun _ => [],
        fun _ => .ok ⟨"c", "m", [⟨"s1", "h1", "line1\nline2"⟩]⟩,
        fun _ => .ok ⟨[1], 2⟩, .ok ()⟩ ⟨"v", 0⟩ false
        ⟨"markdown", "markdown", "a.md", none⟩ ⟨[], [], 0, 0⟩).1.sections.map
        (fun s => s.content)) = ["line1\nline2"]
    ∧ ("line1\nline2" : String) ≠ "line1 line2" := by
  refine ⟨?_, ?_, ?_⟩ <;> decide

/-- C8 amended: for every section of a resynced Page, the text sent to the
Embedding Provider is the chunk's content with newlines collapsed to single
spaces, while the content attribute stored on the inserted Section row is the
chunk's original (un-normalized) content; sections are inserted in
source-declared order with no reordering or deduplication by slug. -/
theorem sections_input_normalized_content_original (env : Env) (ctx : RunCtx) (r : Bool)
    (src : SourceEntry) (db : DB) (lr : LoadResult) (hWF : WF db)
    (hl : env.load src.path = .ok lr)
    (hmc : metaCond r (queryPageByPath db src.path) lr.checksum = false)
    (hall : lr.sections.all (embedOk env) = true) :
    (processSource env ctx r src db).2.2
        = lr.sections.map (fun c => collapseNewlines c.content)
    ∧ ∃ p, queryPageByPath (processSource env ctx r src db).1 src.path = some p
        ∧ (sectionsOfPage (processSource env ctx r src db).1 p.id).map
            (fun s => (s.slug, s.heading, s.content))
          = lr.sections.map (fun c => (c.slug, c.heading, c.content)) := by
  constructor
  · have h1 : expectedSourceCalls env r db src = expectedCalls env lr.sections := by
      unfold expectedSourceCalls
      rw [hl]
      simp only []
      rw [if_neg (by rw [hmc]; simp)]
    exact (processSource_calls env ctx r src db).trans
      (h1.trans (expectedCalls_of_all env lr.sections hall))
  · rcases hq : queryPageByPath db src.path with _ | ex
    · rw [processSource_resync_new env ctx r src db lr hl hq]
      have hsec := resyncPage_sections_self env ctx src lr db
        (by rw [upsertId_of_none db src.path hq]; exact WF_fresh_sections db hWF)
      refine ⟨_, resyncPage_query_self env ctx src lr db, ?_⟩
      rw [hsec]
      exact expectedSections_fields_of_all env _ db.nextSectionId lr.sections hall
    · rw [hq] at hmc
      rw [processSource_resync_existing env ctx r src db lr ex hl hq hmc]
      simp only []
      have hempty0 : sectionsOfPage (deleteSections db ex.id)
          (upsertId (deleteSections db ex.id) src.path) = [] := by
        rw [upsertId_deleteSections, upsertId_of_some db src.path ex hq]
        exact sectionsOfPage_deleteSections_self db ex.id
      have hsec := resyncPage_sections_self env ctx src lr (deleteSections db ex.id)
        hempty0
      refine ⟨_, resyncPage_query_self env ctx src lr (deleteSections db ex.id), ?_⟩
      rw [hsec]
      exact expectedSections_fields_of_all env _ _ lr.sections hall

theorem sections_input_normalized_content_original_witness :
    (processSource ⟨fun _ => .ok (), fun _ => [],
        fun _ => .ok ⟨"c", "m", [⟨"s1", "h1", "a\nb"⟩, ⟨"s1", "h2", "plain"⟩]⟩,
        fun _ => .ok ⟨[1], 2⟩, .ok ()⟩ ⟨"v", 0⟩ false
        ⟨"markdown", "markdown", "a.md", none⟩ ⟨[], [], 0, 0⟩).2.2
      = (⟨"c", "m", [⟨"s1", "h1", "a\nb"⟩, ⟨"s1", "h2", "plain"⟩]⟩
          : LoadResult).sections.map (fun c => collapseNewlines c.content)
    ∧ ∃ p, queryPageByPath (processSource ⟨fun _ => .ok (), fun _ => [],
        fun _ => .ok ⟨"c", "m", [⟨"s1", "h1", "a\nb"⟩, ⟨"s1", "h2", "plain"⟩]⟩,
        fun _ => .ok ⟨[1], 2⟩, .ok ()⟩ ⟨"v", 0⟩ false
        ⟨"markdown", "markdown", "a.md", none⟩ ⟨[], [], 0, 0⟩).1 "a.md" = some p
        ∧ (sectionsOfPage (processSource ⟨fun _ => .ok (), fun _ => [],
            fun _ => .ok ⟨"c", "m", [⟨"s1", "h1", "a\nb"⟩, ⟨"s1", "h2", "plain"⟩]⟩,
            fun _ => .ok ⟨[1], 2⟩, .ok ()⟩ ⟨"v", 0⟩ false
            ⟨"markdown", "markdown", "a.md", none⟩ ⟨[], [], 0, 0⟩).1 p.id).map
            (fun s => (s.slug, s.heading, s.content))
          = (⟨"c", "m", [⟨"s1", "h1", "a\nb"⟩, ⟨"s1", "h2", "plain"⟩]⟩
              : LoadResult).sections.map (fun c => (c.slug, c.heading, c.content)) :=
  sections_input_normalized_content_original ⟨fun _ => .ok (), fun _ => [],
      fun _ => .ok ⟨"c", "m", [⟨"s1", "h1", "a\nb"⟩, ⟨"s1", "h2", "plain"⟩]⟩,
      fun _ => .ok ⟨[1], 2⟩, .ok ()⟩ ⟨"v", 0⟩ false
      ⟨"markdown", "markdown", "a.md", none⟩ ⟨[], [], 0, 0⟩
      ⟨"c", "m", [⟨"s1", "h1", "a\nb"⟩, ⟨"s1", "h2", "plain"⟩]⟩
      (by decide) rfl (by decide) (by decide)

theorem resyncPage_states_spec (env : Env) (ctx : RunCtx) (src : SourceEntry)
    (lr : LoadResult) (dbb : DB)
    (hempty : sectionsOfPage dbb (upsertId dbb src.path) = []) :
    (resyncPage env ctx src lr dbb).2.1 ≠ []
    ∧ (if lr.sections.all (embedOk env) = true then
         ∃ mids commit, (resyncPage env ctx src lr dbb).2.1 = mids ++ [commit]
           ∧ (∀ t ∈ mids, ∃ p, queryPageByPath t src.path = some p ∧ p.checksum = none)
           ∧ (∃ p, queryPageByPath commit src.path = some p
                ∧ p.checksum = some lr.checksum
                ∧ (sectionsOfPage commit p.id).length = lr.sections.length)
       else
         ∀ t ∈ (resyncPage env ctx src lr dbb).2.1,
           ∃ p, queryPageByPath t src.path = some p ∧ p.checksum = none) := by
  have hup1q : queryPageByPath (resyncUp1 ctx src lr dbb) src.path
      = some ⟨upsertId dbb src.path, src.path, none, src.type, src.source, lr.meta,
          resyncParentId dbb src, ctx.refreshVersion, ctx.refreshDate⟩ := by
    unfold resyncUp1
    exact queryPageByPath_upsert_self dbb src.path src.type src.source lr.meta
      (resyncParentId dbb src) ctx.refreshVersion ctx.refreshDate
  have hmidfact : ∀ t ∈ resyncUp1 ctx src lr dbb ::
      expectedSecStates env (resyncUp1 ctx src lr dbb) (upsertId dbb src.path)
        lr.sections,
      ∃ p, queryPageByPath t src.path = some p ∧ p.checksum = none := by
    intro t ht
    rcases List.mem_cons.mp ht with rfl | ht2
    · exact ⟨⟨upsertId dbb src.path, src.path, none, src.type, src.source, lr.meta,
        resyncParentId dbb src, ctx.refreshVersion, ctx.refreshDate⟩, hup1q, rfl⟩
    · have hpg := expectedSecStates_pages env lr.sections (resyncUp1 ctx src lr dbb)
        (upsertId dbb src.path) t ht2
      refine ⟨⟨upsertId dbb src.path, src.path, none, src.type, src.source, lr.meta,
        resyncParentId dbb src, ctx.refreshVersion, ctx.refreshDate⟩, ?_, rfl⟩
      rw [queryPageByPath_congr_pages t (resyncUp1 ctx src lr dbb) hpg src.path]
      exact hup1q
  by_cases hall : lr.sections.all (embedOk env) = true
  · constructor
    · rw [resyncPage_def, if_pos hall]
      simp only []
      exact List.cons_ne_nil _ _
    · rw [if_pos hall]
      rw [resyncPage_def, if_pos hall]
      simp only []
      refine ⟨resyncUp1 ctx src lr dbb ::
          expectedSecStates env (resyncUp1 ctx src lr dbb) (upsertId dbb src.path)
            lr.sections,
        updatePageChecksum (resyncDbE env ctx src lr dbb) (upsertId dbb src.path)
          lr.checksum, by rw [List.cons_append], hmidfact, ?_⟩
      have hq := resyncPage_query_self env ctx src lr dbb
      rw [resyncPage_def, if_pos hall] at hq
      simp only [] at hq
      rw [if_pos hall] at hq
      have hs := resyncPage_sections_self env ctx src lr dbb hempty
      rw [resyncPage_def, if_pos hall] at hs
      simp only [] at hs
      refine ⟨_, hq, rfl, ?_⟩
      simp only []
      rw [hs]
      exact expectedSections_length_of_all env _ _ lr.sections hall
  · constructor
    · rw [resyncPage_def, if_neg hall]
      simp only []
      exact List.cons_ne_nil _ _
    · rw [if_neg hall]
      rw [resyncPage_def, if_neg hall]
      simp only []
      exact hmidfact

theorem processSourceF_sentinel (env : Env) (ctx : RunCtx) (r : Bool) (src : SourceEntry)
    (db : DB) (hWF : WF db) (lr : LoadResult)
    (hl : env.load src.path = .ok lr)
    (hmc : metaCond r (queryPageByPath db src.path) lr.checksum = false) :
    ∀ (sfail : Option Nat) (p : PageRow),
      queryPageByPath (processSourceF env ctx r sfail src db) src.path = some p →
      p.checksum = none ∨ p.checksum = some lr.checksum
        ∨ queryPageByPath db src.path = some p := by
  intro sfail p hp
  have hmem := processSourceF_mem env ctx r src db sfail
  rcases hq : queryPageByPath db src.path with _ | ex
  · rw [processSource_resync_new env ctx r src db lr hl hq] at hmem
    rcases List.mem_cons.mp hmem with heq | hmem2
    · rw [heq] at hp
      rw [hq] at hp
      exact Option.noConfusion hp
    · have hempty : sectionsOfPage db (upsertId db src.path) = [] := by
        rw [upsertId_of_none db src.path hq]
        exact WF_fresh_sections db hWF
      obtain ⟨-, hclause⟩ := resyncPage_states_spec env ctx src lr db hempty
      by_cases hall : lr.sections.all (embedOk env) = true
      · rw [if_pos hall] at hclause
        obtain ⟨mids, commit, hsplit, hmids, pc, hpc1, hpc2, hpc3⟩ := hclause
        rw [hsplit] at hmem2
        rcases List.mem_append.mp hmem2 with hmm | hmm
        · obtain ⟨pp, hqp, hchk⟩ := hmids _ hmm
          rw [hp] at hqp
          rw [Option.some.injEq] at hqp
          rw [hqp]
          exact Or.inl hchk
        · rw [List.mem_singleton] at hmm
          rw [hmm] at hp
          rw [hp] at hpc1
          rw [Option.some.injEq] at hpc1
          rw [hpc1]
          exact Or.inr (Or.inl hpc2)
      · rw [if_neg hall] at hclause
        obtain ⟨pp, hqp, hchk⟩ := hclause _ hmem2
        rw [hp] at hqp
        rw [Option.some.injEq] at hqp
        rw [hqp]
        exact Or.inl hchk
  · have hcond : (!r && (ex.checksum == some lr.checksum)) = false := by
      rw [hq] at hmc
      exact hmc
    rw [processSource_resync_existing env ctx r src db lr ex hl hq hcond] at hmem
    rcases List.mem_cons.mp hmem with heq | hmem2
    · rw [heq] at hp
      rw [hq] at hp
      exact Or.inr (Or.inr hp)
    · rcases List.mem_cons.mp hmem2 with heq | hmem3
      · rw [heq] at hp
        have hp2 : queryPageByPath db src.path = some p := hp
        rw [hq] at hp2
        exact Or.inr (Or.inr hp2)
      · have hempty0 : sectionsOfPage (deleteSections db ex.id)
            (upsertId (deleteSections db ex.id) src.path) = [] := by
          rw [upsertId_deleteSections, upsertId_of_some db src.path ex hq]
          exact sectionsOfPage_deleteSections_self db ex.id
        obtain ⟨-, hclause⟩ := resyncPage_states_spec env ctx src lr
            (deleteSections db ex.id) hempty0
        by_cases hall : lr.sections.all (embedOk env) = true
        · rw [if_pos hall] at hclause
          obtain ⟨mids, commit, hsplit, hmids, pc, hpc1, hpc2, hpc3⟩ := hclause
          rw [hsplit] at hmem3
          rcases List.mem_append.mp hmem3 with hmm | hmm
          · obtain ⟨pp, hqp, hchk⟩ := hmids _ hmm
            rw [hp] at hqp
            rw [Option.some.injEq] at hqp
            rw [hqp]
            exact Or.inl hchk
          · rw [List.mem_singleton] at hmm
            rw [hmm] at hp
            rw [hp] at hpc1
            rw [Option.some.injEq] at hpc1
            rw [hpc1]
            exact Or.inr (Or.inl hpc2)
        · rw [if_neg hall] at hclause
          obtain ⟨pp, hqp, hchk⟩ := hclause _ hmem3
          rw [hp] at hqp
          rw [Option.some.injEq] at hqp
          rw [hqp]
          exact Or.inl hchk

/-- C7: every failure raised while processing one source is caught at the
per-source boundary — a source load failure, an embedding provider failure,
and a store operation failure of any one of the source's query calls
(injected by `sfail`). Under any such failure the resulting store is a state
the per-source write sequence actually reached (the incoming store or an
intermediate state of the write trace), so the Page keeps whatever checksum
state it had at the failure point — in particular a failed final checksum
UPDATE leaves every section inserted with the checksum still NULL, and a
failed metadata UPDATE leaves the states preceding it; with a healthy store
the fault-injected processing is exactly the per-source processing; a load
failure leaves the store untouched; in the changed/forced/new case the Page
at the source's path is, at every possible failure point, either the
untouched pre-existing row, or present with the NULL needs-regeneration
sentinel (in particular after an embedding failure with a healthy store), or
fully committed with the fresh checksum; and the loop equation shows the
engine proceeds to the next source whatever happened to this one. -/
theorem per_source_failure_isolation (env : Env) (ctx : RunCtx) (r : Bool)
    (src : SourceEntry) (db : DB) (hWF : WF db) :
    (∀ sfail, processSourceF env ctx r sfail src db
        ∈ db :: (processSource env ctx r src db).2.1)
    ∧ processSourceF env ctx r none src db = (processSource env ctx r src db).1
    ∧ (∀ e sfail, env.load src.path = .error e →
        processSourceF env ctx r sfail src db = db
          ∧ processSource env ctx r src db = (db, [], []))
    ∧ (∀ lr, env.load src.path = .ok lr →
        metaCond r (queryPageByPath db src.path) lr.checksum = false →
        (lr.sections.all (embedOk env) = false →
          ∃ p, queryPageByPath (processSource env ctx r src db).1 src.path = some p
            ∧ p.checksum = none)
        ∧ (∀ sfail p,
            queryPageByPath (processSourceF env ctx r sfail src db) src.path = some p →
            p.checksum = none ∨ p.checksum = some lr.checksum
              ∨ queryPageByPath db src.path = some p))
    ∧ (∀ sfail sched rest,
        runLoopF env ctx r (sfail :: sched) (src :: rest) db
          = runLoopF env ctx r sched rest (processSourceF env ctx r sfail src db)) := by
  refine ⟨processSourceF_mem env ctx r src db, processSourceF_none env ctx r src db,
    ?_, ?_, fun _ _ _ => rfl⟩
  · intro e sfail hl
    refine ⟨?_, processSource_load_error env ctx r src db e hl⟩
    simp only [processSourceF, hl]
  · intro lr hl hmc
    refine ⟨?_, processSourceF_sentinel env ctx r src db hWF lr hl hmc⟩
    intro hfail
    obtain ⟨p, hp1, _, hp3⟩ := processSource_self env ctx r src db hWF lr hl
    rw [if_neg (by rw [hmc]; simp)] at hp3
    exact ⟨p, hp1, by rw [hp3.1, if_neg (by rw [hfail]; simp)]⟩

theorem per_source_failure_isolation_witness :
    processSourceF ⟨fun _ => .ok (), fun _ => [],
        fun _ => .ok ⟨"c", "m", [⟨"s1", "h1", "x"⟩]⟩, fun _ => .ok ⟨[1], 2⟩, .ok ()⟩
      ⟨"v", 0⟩ false (some 2) ⟨"markdown", "markdown", "a.md", none⟩ ⟨[], [], 0, 0⟩
      ∈ (⟨[], [], 0, 0⟩ : DB) :: (processSource ⟨fun _ => .ok (), fun _ => [],
          fun _ => .ok ⟨"c", "m", [⟨"s1", "h1", "x"⟩]⟩, fun _ => .ok ⟨[1], 2⟩, .ok ()⟩
        ⟨"v", 0⟩ false ⟨"markdown", "markdown", "a.md", none⟩ ⟨[], [], 0, 0⟩).2.1 :=
  (per_source_failure_isolation ⟨fun _ => .ok (), fun _ => [],
      fun _ => .ok ⟨"c", "m", [⟨"s1", "h1", "x"⟩]⟩, fun _ => .ok ⟨[1], 2⟩, .ok ()⟩
    ⟨"v", 0⟩ false ⟨"markdown", "markdown", "a.md", none⟩ ⟨[], [], 0, 0⟩ (by decide)).1
    (some 2)

/-- C1: in the changed/forced/new case, the Page's checksum is NULL from the
moment of the upsert (both on a fresh insert and on a conflict-overwrite of a
pre-existing row) through every state of the per-section loop; the checksum
is updated to the freshly computed non-null value only in a final commit
state that exists exactly when every Section succeeded, and at that commit
every Section of the Page is present. Any write preceding the upsert (the
section purge) does not touch the page rows at all. -/
theorem checksum_null_until_commit (env : Env) (ctx : RunCtx) (r : Bool)
    (src : SourceEntry) (db : DB) (lr : LoadResult) (hWF : WF db)
    (hl : env.load src.path = .ok lr)
    (hmc : metaCond r (queryPageByPath db src.path) lr.checksum = false) :
    ∃ preStates resyncStates,
      (processSource env ctx r src db).2.1 = preStates ++ resyncStates
      ∧ preStates.length ≤ 1
      ∧ (∀ t ∈ preStates, t.pages = db.pages)
      ∧ resyncStates ≠ []
      ∧ (if lr.sections.all (embedOk env) = true then
           ∃ mids commit, resyncStates = mids ++ [commit]
             ∧ (∀ t ∈ mids, ∃ p, queryPageByPath t src.path = some p
                  ∧ p.checksum = none)
             ∧ (∃ p, queryPageByPath commit src.path = some p
                  ∧ p.checksum = some lr.checksum
                  ∧ (sectionsOfPage commit p.id).length = lr.sections.length)
         else
           ∀ t ∈ resyncStates, ∃ p, queryPageByPath t src.path = some p
             ∧ p.checksum = none) := by
  rcases hq : queryPageByPath db src.path with _ | ex
  · rw [processSource_resync_new env ctx r src db lr hl hq]
    have hempty : sectionsOfPage db (upsertId db src.path) = [] := by
      rw [upsertId_of_none db src.path hq]
      exact WF_fresh_sections db hWF
    obtain ⟨hne, hclause⟩ := resyncPage_states_spec env ctx src lr db hempty
    exact ⟨[], (resyncPage env ctx src lr db).2.1, (List.nil_append _).symm,
      by simp, fun t ht => absurd ht (List.not_mem_nil t), hne, hclause⟩
  · rw [hq] at hmc
    rw [processSource_resync_existing env ctx r src db lr ex hl hq hmc]
    simp only []
    have hempty0 : sectionsOfPage (deleteSections db ex.id)
        (upsertId (deleteSections db ex.id) src.path) = [] := by
      rw [upsertId_deleteSections, upsertId_of_some db src.path ex hq]
      exact sectionsOfPage_deleteSections_self db ex.id
    obtain ⟨hne, hclause⟩ := resyncPage_states_spec env ctx src lr
      (deleteSections db ex.id) hempty0
    refine ⟨[deleteSections db ex.id],
      (resyncPage env ctx src lr (deleteSections db ex.id)).2.1, rfl, by simp,
      ?_, hne, hclause⟩
    intro t ht
    rcases List.mem_singleton.mp ht with rfl
    rfl

theorem checksum_null_until_commit_witness :
    ∃ preStates resyncStates,
      (processSource ⟨fun _ => .ok (), fun _ => [],
          fun _ => .ok ⟨"c", "m", [⟨"s1", "h1", "x"⟩]⟩, fun _ => .ok ⟨[1], 2⟩, .ok ()⟩
          ⟨"v", 0⟩ false ⟨"markdown", "markdown", "a.md", none⟩ ⟨[], [], 0, 0⟩).2.1
        = preStates ++ resyncStates
      ∧ preStates.length ≤ 1
      ∧ (∀ t ∈ preStates, t.pages = (⟨[], [], 0, 0⟩ : DB).pages)
      ∧ resyncStates ≠ []
      ∧ (if (⟨"c", "m", [⟨"s1", "h1", "x"⟩]⟩ : LoadResult).sections.all
            (embedOk ⟨fun _ => .ok (), fun _ => [],
              fun _ => .ok ⟨"c", "m", [⟨"s1", "h1", "x"⟩]⟩, fun _ => .ok ⟨[1], 2⟩,
              .ok ()⟩) = true then
           ∃ mids commit, resyncStates = mids ++ [commit]
             ∧ (∀ t ∈ mids, ∃ p, queryPageByPath t "a.md" = some p
                  ∧ p.checksum = none)
             ∧ (∃ p, queryPageByPath commit "a.md" = some p
                  ∧ p.checksum = some "c"
                  ∧ (sectionsOfPage commit p.id).length
                      = (⟨"c", "m", [⟨"s1", "h1", "x"⟩]⟩ : LoadResult).sections.length)
         else
           ∀ t ∈ resyncStates, ∃ p, queryPageByPath t "a.md" = some p
             ∧ p.checksum = none) :=
  checksum_null_until_commit ⟨fun _ => .ok (), fun _ => [],
      fun _ => .ok ⟨"c", "m", [⟨"s1", "h1", "x"⟩]⟩, fun _ => .ok ⟨[1], 2⟩, .ok ()⟩
    ⟨"v", 0⟩ false ⟨"markdown", "markdown", "a.md", none⟩ ⟨[], [], 0, 0⟩
    ⟨"c", "m", [⟨"s1", "h1", "x"⟩]⟩ (by decide) rfl (by decide)

/-- C3: after a run completes (with the connection healthy throughout, a fresh
version token, duplicate-free discovered paths, and every loader call
succeeding), the set of Page rows is stamped exactly with the run's version
token and its paths are exactly the paths of the discovered sources that
passed the extension filter and the ignore list; every other Page row has
been deleted by the final sweep. -/
theorem sweep_completeness (env : Env) (ctx : RunCtx) (props : GenerateEmbeddingsProps)
    (db : DB)
    (hc : env.connect props.postgresConnectionString = .ok ())
    (hcl : env.close = .ok ())
    (hWF : WF db)
    (hnd : (((discoverSources (env.walk props.docsRootPath)).map
        (fun s => s.path)).Nodup))
    (hload : ∀ src ∈ discoverSources (env.walk props.docsRootPath),
        ∃ lr, env.load src.path = .ok lr)
    (hfresh : ∀ p ∈ db.pages, p.version ≠ ctx.refreshVersion) :
    ∃ out calls, generateEmbeddings env ctx props db = .ok (out, calls)
      ∧ (∀ p ∈ out.pages, p.version = ctx.refreshVersion)
      ∧ (∀ p ∈ out.pages, ∃ s ∈ discoverSources (env.walk props.docsRootPath),
           s.path = p.path)
      ∧ (∀ s ∈ discoverSources (env.walk props.docsRootPath),
           ∃ p ∈ out.pages, p.path = s.path) := by
  obtain ⟨out, calls, heq, hwf, hver, hsub, hq⟩ :=
    generateEmbeddings_post env ctx props db hc hcl hWF hnd hload hfresh
  refine ⟨out, calls, heq, hver, hsub, ?_⟩
  intro s hs
  obtain ⟨lr, hl⟩ := hload s hs
  obtain ⟨p, hp1, hp2, _, _⟩ := hq s hs lr hl
  exact ⟨p, hp2, (queryPageByPath_mem out s.path p hp1).2⟩

theorem sweep_completeness_witness :
    ∃ out calls,
      generateEmbeddings ⟨fun _ => .ok (), fun _ => [⟨"a.md", none⟩, ⟨"pages/404.mdx",
          none⟩, ⟨"skip.txt", none⟩],
          fun _ => .ok ⟨"c", "m", [⟨"s1", "h1", "x"⟩]⟩, fun _ => .ok ⟨[1], 2⟩, .ok ()⟩
        ⟨"v", 0⟩ ⟨false, "pg", "key", "docs"⟩
        ⟨[⟨7, "gone.md", some "old", "t", "s", "m", none, "v0", 0⟩], [], 8, 0⟩
        = .ok (out, calls)
      ∧ (∀ p ∈ out.pages, p.version = "v")
      ∧ (∀ p ∈ out.pages, ∃ s ∈ discoverSources ((⟨fun _ => .ok (),
          fun _ => [⟨"a.md", none⟩, ⟨"pages/404.mdx", none⟩, ⟨"skip.txt", none⟩],
          fun _ => .ok ⟨"c", "m", [⟨"s1", "h1", "x"⟩]⟩, fun _ => .ok ⟨[1], 2⟩,
          .ok ()⟩ : Env).walk "docs"), s.path = p.path)
      ∧ (∀ s ∈ discoverSources ((⟨fun _ => .ok (),
          fun _ => [⟨"a.md", none⟩, ⟨"pages/404.mdx", none⟩, ⟨"skip.txt", none⟩],
          fun _ => .ok ⟨"c", "m", [⟨"s1", "h1", "x"⟩]⟩, fun _ => .ok ⟨[1], 2⟩,
          .ok ()⟩ : Env).walk "docs"), ∃ p ∈ out.pages, p.path = s.path) :=
  sweep_completeness ⟨fun _ => .ok (), fun _ => [⟨"a.md", none⟩, ⟨"pages/404.mdx",
      none⟩, ⟨"skip.txt", none⟩],
      fun _ => .ok ⟨"c", "m", [⟨"s1", "h1", "x"⟩]⟩, fun _ => .ok ⟨[1], 2⟩, .ok ()⟩
    ⟨"v", 0⟩ ⟨false, "pg", "key", "docs"⟩
    ⟨[⟨7, "gone.md", some "old", "t", "s", "m", none, "v0", 0⟩], [], 8, 0⟩
    rfl rfl (by decide) (by decide)
    (fun src _ => ⟨⟨"c", "m", [⟨"s1", "h1", "x"⟩]⟩, rfl⟩) (by decide)

/-- C4: in a batch whose sources all take the changed/forced/new branch, if
the provider is made to fail on some chunk of source k while succeeding for
every other source, the run still processes the whole batch: source k's Page
survives the run with a NULL checksum and only a proper prefix of its
Sections inserted, while every other source's Page ends fully persisted with
the freshly computed non-null checksum and a complete set of Sections. -/
theorem partial_failure_containment (env : Env) (ctx : RunCtx)
    (props : GenerateEmbeddingsProps) (db : DB)
    (hc : env.connect props.postgresConnectionString = .ok ())
    (hcl : env.close = .ok ())
    (hWF : WF db)
    (hnd : (((discoverSources (env.walk props.docsRootPath)).map
        (fun s => s.path)).Nodup))
    (hload : ∀ src ∈ discoverSources (env.walk props.docsRootPath),
        ∃ lr, env.load src.path = .ok lr)
    (hresync : ∀ s ∈ discoverSources (env.walk props.docsRootPath),
        metaCondB env props.shouldRefresh db s = false)
    (k : Nat) (hk : k < (discoverSources (env.walk props.docsRootPath)).length)
    (hfailk : ∀ lr, env.load ((discoverSources (env.walk props.docsRootPath)).get
        ⟨k, hk⟩).path = .ok lr → lr.sections.all (embedOk env) = false)
    (hokOther : ∀ s ∈ discoverSources (env.walk props.docsRootPath),
        s.path ≠ ((discoverSources (env.walk props.docsRootPath)).get ⟨k, hk⟩).path →
        ∀ lr, env.load s.path = .ok lr → lr.sections.all (embedOk env) = true) :
    ∃ out calls, generateEmbeddings env ctx props db = .ok (out, calls)
      ∧ (∀ s ∈ discoverSources (env.walk props.docsRootPath),
          ∀ lr, env.load s.path = .ok lr →
          ∃ p, queryPageByPath out s.path = some p
            ∧ p.version = ctx.refreshVersion
            ∧ (if s.path = ((discoverSources (env.walk props.docsRootPath)).get
                  ⟨k, hk⟩).path
               then p.checksum = none
                 ∧ (sectionsOfPage out p.id).length < lr.sections.length
               else p.checksum = some lr.checksum
                 ∧ (sectionsOfPage out p.id).length = lr.sections.length)) := by
  obtain ⟨hL1, hL2, hL3, hL4, hL5⟩ := runLoop_spec env ctx props.shouldRefresh
    (discoverSources (env.walk props.docsRootPath)) db hWF hnd hload
  refine ⟨_, _, generateEmbeddings_ok env ctx props db hc hcl, ?_⟩
  intro s hs lr hl
  obtain ⟨p, hp1, hp2, hp3⟩ := hL4 s hs lr hl
  have hmc := metaCond_of_metaCondB_false env props.shouldRefresh db s lr hl
    (hresync s hs)
  rw [if_neg (by rw [hmc]; simp)] at hp3
  obtain ⟨hchk, startId, hsec⟩ := hp3
  have hpm := queryPageByPath_mem _ s.path p hp1
  have hq2 := queryPageByPath_sweep_of_version _ hL1 ctx.refreshVersion s.path p hp1 hp2
  have hs2 := sectionsOfPage_sweep_of_kept _ hL1 ctx.refreshVersion p hpm.1 hp2
  refine ⟨p, hq2, hp2, ?_⟩
  by_cases hks : s.path = ((discoverSources (env.walk props.docsRootPath)).get
      ⟨k, hk⟩).path
  · rw [if_pos hks]
    have hl2 := hl
    rw [hks] at hl2
    have hfail := hfailk lr hl2
    constructor
    · rw [hchk, if_neg (by rw [hfail]; simp)]
    · rw [hs2, hsec]
      exact expectedSections_length_lt_of_not_all env p.id startId lr.sections hfail
  · rw [if_neg hks]
    have hok := hokOther s hs hks lr hl
    constructor
    · rw [hchk, if_pos hok]
    · rw [hs2, hsec]
      exact expectedSections_length_of_all env p.id startId lr.sections hok

/-- The environment of the C4 witness: two markdown sources, the provider
failing exactly on the second source's chunk. -/
def envC4 : Env :=
  ⟨fun _ => .ok (), fun _ => [⟨"a.md", none⟩, ⟨"b.md", none⟩],
   fun p => if p = "a.md" then .ok ⟨"ca", "m", [⟨"s", "h", "good"⟩]⟩
            else .ok ⟨"cb", "m", [⟨"s", "h", "bad"⟩]⟩,
   fun s => if s = "bad" then .error "boom" else .ok ⟨[1], 1⟩, .ok ()⟩

def propsC4 : GenerateEmbeddingsProps := ⟨false, "pg", "key", "docs"⟩

theorem partial_failure_containment_witness :
    ∃ out calls, generateEmbeddings envC4 ⟨"v", 0⟩ propsC4 ⟨[], [], 0, 0⟩
        = .ok (out, calls)
      ∧ (∀ s ∈ discoverSources (envC4.walk propsC4.docsRootPath),
          ∀ lr, envC4.load s.path = .ok lr →
          ∃ p, queryPageByPath out s.path = some p
            ∧ p.version = "v"
            ∧ (if s.path = ((discoverSources (envC4.walk propsC4.docsRootPath)).get
                  ⟨1, by decide⟩).path
               then p.checksum = none
                 ∧ (sectionsOfPage out p.id).length < lr.sections.length
               else p.checksum = some lr.checksum
                 ∧ (sectionsOfPage out p.id).length = lr.sections.length)) := by
  refine partial_failure_containment envC4 ⟨"v", 0⟩ propsC4 ⟨[], [], 0, 0⟩ rfl rfl
    (by decide) (by decide) ?_ (by decide) 1 (by decide) ?_ ?_
  · intro src hsrc
    have h2 : src ∈ [(⟨"markdown", "markdown", "a.md", none⟩ : SourceEntry),
        ⟨"markdown", "markdown", "b.md", none⟩] := hsrc
    rcases List.mem_cons.mp h2 with rfl | h3
    · exact ⟨⟨"ca", "m", [⟨"s", "h", "good"⟩]⟩, rfl⟩
    rcases List.mem_cons.mp h3 with rfl | h4
    · exact ⟨⟨"cb", "m", [⟨"s", "h", "bad"⟩]⟩, rfl⟩
    cases h4
  · intro lr h
    have h2 : (Except.ok (⟨"cb", "m", [⟨"s", "h", "bad"⟩]⟩ : LoadResult)
        : Except String LoadResult) = .ok lr := h
    injection h2 with h3
    rw [← h3]
    decide
  · intro s hs hne lr h
    have h2 : s ∈ [(⟨"markdown", "markdown", "a.md", none⟩ : SourceEntry),
        ⟨"markdown", "markdown", "b.md", none⟩] := hs
    rcases List.mem_cons.mp h2 with rfl | h3
    · have h4 : (Except.ok (⟨"ca", "m", [⟨"s", "h", "good"⟩]⟩ : LoadResult)
          : Except String LoadResult) = .ok lr := h
      injection h4 with h5
      rw [← h5]
      decide
    rcases List.mem_cons.mp h3 with rfl | h4
    · exact absurd rfl hne
    cases h4

/-- C5: running the engine a second time with the refresh flag unset and no
change to any source leaves every Section row identical and sends zero inputs
to the Embedding Provider during the second run — the procedure is idempotent
with respect to embeddings. -/
theorem embeddings_idempotent (env : Env) (ctx1 ctx2 : RunCtx)
    (props : GenerateEmbeddingsProps) (db : DB)
    (hr : props.shouldRefresh = false)
    (hc : env.connect props.postgresConnectionString = .ok ())
    (hcl : env.close = .ok ())
    (hWF : WF db)
    (hnd : (((discoverSources (env.walk props.docsRootPath)).map
        (fun s => s.path)).Nodup))
    (hload : ∀ src ∈ discoverSources (env.walk props.docsRootPath),
        ∃ lr, env.load src.path = .ok lr)
    (hallok : ∀ s ∈ discoverSources (env.walk props.docsRootPath),
        ∀ lr, env.load s.path = .ok lr → lr.sections.all (embedOk env) = true)
    (hfresh : ∀ p ∈ db.pages, p.version ≠ ctx1.refreshVersion) :
    ∃ db1 calls1 db2 calls2,
      generateEmbeddings env ctx1 props db = .ok (db1, calls1)
      ∧ generateEmbeddings env ctx2 props db1 = .ok (db2, calls2)
      ∧ calls2 = []
      ∧ db2.sections = db1.sections := by
  obtain ⟨db1, calls1, heq1, hWF1, hver1, hsub1, hq1⟩ :=
    generateEmbeddings_post env ctx1 props db hc hcl hWF hnd hload hfresh
  have hmeta : ∀ s ∈ discoverSources (env.walk props.docsRootPath),
      metaCondB env props.shouldRefresh db1 s = true := by
    intro s hs
    obtain ⟨lr, hl⟩ := hload s hs
    obtain ⟨p, hp1, _, _, hchk⟩ := hq1 s hs lr hl
    rw [hr]
    exact metaCondB_true_intro env db1 s lr p hl hp1 (hchk (hallok s hs lr hl))
  obtain ⟨hL1, hL2, hL3, hL4, hL5⟩ := runLoop_spec env ctx2 props.shouldRefresh
    (discoverSources (env.walk props.docsRootPath)) db1 hWF1 hnd hload
  have hsecL2 := runLoop_allMeta_sections env ctx2 props.shouldRefresh
    (discoverSources (env.walk props.docsRootPath)) db1 hWF1 hnd hmeta
  have hstamp : ∀ p ∈ (runLoop env ctx2 props.shouldRefresh
      (discoverSources (env.walk props.docsRootPath)) db1).1.pages,
      p.version = ctx2.refreshVersion := by
    intro p hp
    by_cases hin : ∃ s ∈ discoverSources (env.walk props.docsRootPath),
        s.path = p.path
    · obtain ⟨s, hs, hsp⟩ := hin
      obtain ⟨lr, hl⟩ := hload s hs
      obtain ⟨p2, hp21, hp22, _⟩ := hL4 s hs lr hl
      have hself := queryPageByPath_of_mem _ hL1.1 p hp
      rw [hsp] at hp21
      rw [hself] at hp21
      injection hp21 with h
      rw [h]
      exact hp22
    · exfalso
      push_neg at hin
      have hfr := hL2 p.path (fun s hs hc2 => hin s hs hc2.symm)
      have hself := queryPageByPath_of_mem _ hL1.1 p hp
      rw [hself] at hfr
      have hm := queryPageByPath_mem db1 p.path p hfr.symm
      obtain ⟨s, hs, hsp⟩ := hsub1 p hm.1
      exact hin s hs hsp
  refine ⟨db1, calls1, _, _, heq1, generateEmbeddings_ok env ctx2 props db1 hc hcl,
    ?_, ?_⟩
  · rw [hL5]
    exact flatMap_eq_nil _ _
      (fun s hs => expectedSourceCalls_eq_nil_of_metaCondB env props.shouldRefresh db1 s
        (hmeta s hs))
  · rw [sweepPages_sections_of_all _ _ hstamp, hsecL2]

def envC5 : Env :=
  ⟨fun _ => .ok (), fun _ => [⟨"a.md", none⟩],
   fun _ => .ok ⟨"c", "m", [⟨"s", "h", "x"⟩]⟩, fun _ => .ok ⟨[1], 1⟩, .ok ()⟩

theorem embeddings_idempotent_witness :
    ∃ db1 calls1 db2 calls2,
      generateEmbeddings envC5 ⟨"v1", 0⟩ ⟨false, "pg", "key", "docs"⟩ ⟨[], [], 0, 0⟩
        = .ok (db1, calls1)
      ∧ generateEmbeddings envC5 ⟨"v2", 1⟩ ⟨false, "pg", "key", "docs"⟩ db1
        = .ok (db2, calls2)
      ∧ calls2 = []
      ∧ db2.sections = db1.sections := by
  refine embeddings_idempotent envC5 ⟨"v1", 0⟩ ⟨"v2", 1⟩ ⟨false, "pg", "key", "docs"⟩
    ⟨[], [], 0, 0⟩ rfl rfl rfl (by decide) (by decide) ?_ ?_ (by decide)
  · intro src _
    exact ⟨⟨"c", "m", [⟨"s", "h", "x"⟩]⟩, rfl⟩
  · intro s _ lr h
    have h2 : (Except.ok (⟨"c", "m", [⟨"s", "h", "x"⟩]⟩ : LoadResult)
        : Except String LoadResult) = .ok lr := h
    injection h2 with h3
    rw [← h3]
    decide
